/-
Verification of the RubiksCube repository (cube.py / cube_simulator.py /
cube_simulator_3x3.py) against its natural-language specification.

The cube state is a 3-dimensional grid of colours: 6 faces, each size×size.
The repository stores it as nested Python lists `list[list[list[Colour]]]`.
We use two faithful views of that data:

* `CubeF n := Fin 6 → Fin n → Fin n → Colour` — the grid as a total
  function on valid indices.  The rotation engine only ever reads and
  writes in-range cells (all reads happen before any write in each
  rotation, and no aliasing between slots is ever created), so a pure
  read-then-write semantics on this view is an exact translation of the
  in-place Python mutations.
* `List (List (List Colour))` — the literal nested-list shape, used for
  the serialization functions and the accessors, where Python list
  semantics (sequential reads, IndexError, negative-index wrap-around)
  are themselves under scrutiny.

Both historical variants of `rotate_x` present in the repository are
embedded: `Cube.rotate_x` follows src/src/cube.py (current) and
`Cube.rotate_x_legacy` follows the older top-level src/cube.py, whose
UP branch writes face 5 without `reverse=True`.
-/
import Mathlib

set_option maxRecDepth 10000

namespace RubiksCube

/-- Colours for the faces of the cube (enum-declaration order G,R,B,O,W,Y). -/
inductive Colour where
  | GREEN
  | RED
  | BLUE
  | ORANGE
  | WHITE
  | YELLOW
deriving DecidableEq, Repr, Fintype

/-- The list of colours in enum-declaration order (iteration order of
`for colour in Colour` in Python). -/
def colourOrder : List Colour :=
  [Colour.GREEN, Colour.RED, Colour.BLUE, Colour.ORANGE, Colour.WHITE, Colour.YELLOW]

/-- Moves to be performed on a row of the cube. -/
inductive RowMove where
  | LEFT
  | RIGHT
deriving DecidableEq, Repr

/-- Moves to be performed on a column of the cube. -/
inductive ColumnMove where
  | UP
  | DOWN
deriving DecidableEq, Repr

/-- Directions a face of the cube can be rotated in. -/
inductive RotateMove where
  | ANTICLOCKWISE
  | CLOCKWISE
deriving DecidableEq, Repr

/-- The cube grid: 6 faces, each an n×n grid of colours, viewed as a total
function on valid indices (face, row, column). -/
def CubeF (n : Nat) : Type := Fin 6 → Fin n → Fin n → Colour

instance (n : Nat) : DecidableEq (CubeF n) :=
  inferInstanceAs (DecidableEq (Fin 6 → Fin n → Fin n → Colour))

/-- The colour assigned to each face slot of a freshly created cube:
face index 0..5 maps onto the colours in enum-declaration order. -/
def faceColour : Fin 6 → Colour
  | 0 => Colour.GREEN
  | 1 => Colour.RED
  | 2 => Colour.BLUE
  | 3 => Colour.ORANGE
  | 4 => Colour.WHITE
  | 5 => Colour.YELLOW

/-- `Cube.create_solved_cube` / `Cube.create_completed_cube` on the grid view:
each face uniformly carries its own colour. -/
def solvedCube (n : Nat) : CubeF n := fun f _ _ => faceColour f

namespace Cube

variable {n : Nat}

/-- `Cube.get_column`: the column of a face, top to bottom. -/
def get_column (st : CubeF n) (face : Fin 6) (column : Fin n) : Fin n → Colour :=
  fun row => st face row column

/-- `Cube.get_row`: the row of a face (Python returns the row list itself). -/
def get_row (st : CubeF n) (face : Fin 6) (row : Fin n) : Fin n → Colour :=
  fun column => st face row column

/-- `Cube._set_column`: write a column of a face from a stored column list,
optionally in reverse order. -/
def set_column (st : CubeF n) (face : Fin 6) (column : Fin n)
    (v : Fin n → Colour) (reverse : Bool) : CubeF n :=
  fun f r c =>
    if f = face ∧ c = column then (if reverse then v r.rev else v r) else st f r c

/-- `Cube._set_row`: write a row of a face from a stored row list,
optionally in reverse order. -/
def set_row (st : CubeF n) (face : Fin 6) (row : Fin n)
    (v : Fin n → Colour) (reverse : Bool) : CubeF n :=
  fun f r c =>
    if f = face ∧ r = row then (if reverse then v c.rev else v c) else st f r c

/-- `Cube._rotate_face`: rotate one face's own grid 90°, leaving every other
face untouched.  ANTICLOCKWISE assigns row r := captured column (n-1-r);
CLOCKWISE assigns cell (r,c) := captured column r at index (n-1-c),
i.e. cell (r,c) := old cell (n-1-c, r). -/
def rotate_face (st : CubeF n) (face : Fin 6) (direction : RotateMove) : CubeF n :=
  fun f r c =>
    if f = face then
      match direction with
      | RotateMove.ANTICLOCKWISE => st face c r.rev
      | RotateMove.CLOCKWISE => st face c.rev r
    else st f r c

/-- `Cube.rotate_x` (src/src/cube.py, current variant), after the 1-indexed
argument has been converted to the 0-indexed `column`.  Reads the four
strips first, then writes them, then spins face 0 (column 0) or face 2
(column n-1) — `elif`, so at n = 1 only face 0 spins. -/
def rotate_x0 (column : Fin n) (direction : ColumnMove) (st : CubeF n) : CubeF n :=
  let face1_column := get_column st 1 column
  let face4_column := get_column st 4 column
  let face3_column := get_column st 3 column.rev  -- the opposite column
  let face5_column := get_column st 5 column
  let st' :=
    match direction with
    | ColumnMove.UP =>
        set_column (set_column (set_column (set_column st
          1 column face5_column false)
          4 column face1_column false)
          3 column.rev face4_column true)
          5 column face3_column true
    | ColumnMove.DOWN =>
        set_column (set_column (set_column (set_column st
          1 column face4_column false)
          4 column face3_column true)
          3 column.rev face5_column true)
          5 column face1_column false
  if column.val = 0 then
    rotate_face st' 0 (match direction with
      | ColumnMove.UP => RotateMove.ANTICLOCKWISE
      | ColumnMove.DOWN => RotateMove.CLOCKWISE)
  else if column.val = n - 1 then
    rotate_face st' 2 (match direction with
      | ColumnMove.UP => RotateMove.CLOCKWISE
      | ColumnMove.DOWN => RotateMove.ANTICLOCKWISE)
  else st'

/-- `Cube.rotate_x` of the older top-level src/cube.py.  Identical to the
current variant except that the UP branch writes face 5 from face 3's
strip WITHOUT `reverse=True`. -/
def rotate_x0_legacy (column : Fin n) (direction : ColumnMove) (st : CubeF n) : CubeF n :=
  let face1_column := get_column st 1 column
  let face4_column := get_column st 4 column
  let face3_column := get_column st 3 column.rev
  let face5_column := get_column st 5 column
  let st' :=
    match direction with
    | ColumnMove.UP =>
        set_column (set_column (set_column (set_column st
          1 column face5_column false)
          4 column face1_column false)
          3 column.rev face4_column true)
          5 column face3_column false
    | ColumnMove.DOWN =>
        set_column (set_column (set_column (set_column st
          1 column face4_column false)
          4 column face3_column true)
          3 column.rev face5_column true)
          5 column face1_column false
  if column.val = 0 then
    rotate_face st' 0 (match direction with
      | ColumnMove.UP => RotateMove.ANTICLOCKWISE
      | ColumnMove.DOWN => RotateMove.CLOCKWISE)
  else if column.val = n - 1 then
    rotate_face st' 2 (match direction with
      | ColumnMove.UP => RotateMove.CLOCKWISE
      | ColumnMove.DOWN => RotateMove.ANTICLOCKWISE)
  else st'

/-- `Cube.rotate_y` (identical in both variants), after 0-indexing the row.
Cycles the row across faces 0,1,2,3 with no reversal, then spins face 4
(row 0) or face 5 (row n-1). -/
def rotate_y0 (row : Fin n) (direction : RowMove) (st : CubeF n) : CubeF n :=
  let face0_row := get_row st 0 row
  let face1_row := get_row st 1 row
  let face2_row := get_row st 2 row
  let face3_row := get_row st 3 row
  let st' :=
    match direction with
    | RowMove.LEFT =>
        set_row (set_row (set_row (set_row st
          0 row face1_row false)
          1 row face2_row false)
          2 row face3_row false)
          3 row face0_row false
    | RowMove.RIGHT =>
        set_row (set_row (set_row (set_row st
          0 row face3_row false)
          1 row face0_row false)
          2 row face1_row false)
          3 row face2_row false
  if row.val = 0 then
    rotate_face st' 4 (match direction with
      | RowMove.LEFT => RotateMove.CLOCKWISE
      | RowMove.RIGHT => RotateMove.ANTICLOCKWISE)
  else if row.val = n - 1 then
    rotate_face st' 5 (match direction with
      | RowMove.LEFT => RotateMove.ANTICLOCKWISE
      | RowMove.RIGHT => RotateMove.CLOCKWISE)
  else st'

/-- `Cube.rotate_z` (identical in both variants), after 0-indexing the column.
Some "columns" are stored as rows on faces 4 and 5. -/
def rotate_z0 (column : Fin n) (direction : ColumnMove) (st : CubeF n) : CubeF n :=
  let face2_column := get_column st 2 column
  let face4_column := get_row st 4 column.rev  -- opposite "column", stored as a row
  let face0_column := get_column st 0 column.rev  -- opposite column
  let face5_column := get_row st 5 column  -- stored as a row
  let st' :=
    match direction with
    | ColumnMove.UP =>
        set_row (set_column (set_row (set_column st
          2 column face5_column true)
          4 column.rev face2_column false)
          0 column.rev face4_column true)
          5 column face0_column false
    | ColumnMove.DOWN =>
        set_row (set_column (set_row (set_column st
          2 column face4_column false)
          4 column.rev face0_column true)
          0 column.rev face5_column false)
          5 column face2_column true
  if column.val = 0 then
    rotate_face st' 1 (match direction with
      | ColumnMove.UP => RotateMove.ANTICLOCKWISE
      | ColumnMove.DOWN => RotateMove.CLOCKWISE)
  else if column.val = n - 1 then
    rotate_face st' 3 (match direction with
      | ColumnMove.UP => RotateMove.CLOCKWISE
      | ColumnMove.DOWN => RotateMove.ANTICLOCKWISE)
  else st'

/-- `Cube.rotate_x` public entry: the column argument is 1-indexed and
validated against [1, size]; `ValueError("Invalid column")` otherwise. -/
def rotate_x (column : Nat) (direction : ColumnMove) (st : CubeF n) :
    Except String (CubeF n) :=
  if h : 1 ≤ column ∧ column ≤ n then
    .ok (rotate_x0 ⟨column - 1, by omega⟩ direction st)
  else .error "Invalid column"

/-- `Cube.rotate_y` public entry: 1-indexed, validated row argument. -/
def rotate_y (row : Nat) (direction : RowMove) (st : CubeF n) :
    Except String (CubeF n) :=
  if h : 1 ≤ row ∧ row ≤ n then
    .ok (rotate_y0 ⟨row - 1, by omega⟩ direction st)
  else .error "Invalid row"

/-- `Cube.rotate_z` public entry: 1-indexed, validated column argument. -/
def rotate_z (column : Nat) (direction : ColumnMove) (st : CubeF n) :
    Except String (CubeF n) :=
  if h : 1 ≤ column ∧ column ≤ n then
    .ok (rotate_z0 ⟨column - 1, by omega⟩ direction st)
  else .error "Invalid column"

end Cube

end RubiksCube

namespace RubiksCube

/-- The 3x3 cube state used by `CubeSimulator3x3`. -/
def Cube3 : Type := CubeF 3

instance : DecidableEq Cube3 :=
  inferInstanceAs (DecidableEq (CubeF 3))

namespace CubeSimulator3x3

open Cube

/-- `move_U`: `rotate_y(1, LEFT)` (RIGHT when prime). -/
def move_U (prime : Bool) (st : Cube3) : Cube3 :=
  let direction := if prime = false then RowMove.LEFT else RowMove.RIGHT
  rotate_y0 0 direction st

/-- `move_D`: `rotate_y(3, RIGHT)` (LEFT when prime). -/
def move_D (prime : Bool) (st : Cube3) : Cube3 :=
  let direction := if prime = false then RowMove.RIGHT else RowMove.LEFT
  rotate_y0 2 direction st

/-- `move_L`: `rotate_x(1, DOWN)` (UP when prime). -/
def move_L (prime : Bool) (st : Cube3) : Cube3 :=
  let direction := if prime = false then ColumnMove.DOWN else ColumnMove.UP
  rotate_x0 0 direction st

/-- `move_R`: `rotate_x(3, UP)` (DOWN when prime). -/
def move_R (prime : Bool) (st : Cube3) : Cube3 :=
  let direction := if prime = false then ColumnMove.UP else ColumnMove.DOWN
  rotate_x0 2 direction st

/-- `move_F`: `rotate_z(1, DOWN)` (UP when prime) — src/src variant. -/
def move_F (prime : Bool) (st : Cube3) : Cube3 :=
  let direction := if prime = false then ColumnMove.DOWN else ColumnMove.UP
  rotate_z0 0 direction st

/-- `move_B`: `rotate_z(3, UP)` (DOWN when prime). -/
def move_B (prime : Bool) (st : Cube3) : Cube3 :=
  let direction := if prime = false then ColumnMove.UP else ColumnMove.DOWN
  rotate_z0 2 direction st

/-- `move_M`: `rotate_x(2, DOWN)` (UP when prime). -/
def move_M (prime : Bool) (st : Cube3) : Cube3 :=
  let direction := if prime = false then ColumnMove.DOWN else ColumnMove.UP
  rotate_x0 1 direction st

/-- `move_E`: `rotate_y(2, RIGHT)` (LEFT when prime). -/
def move_E (prime : Bool) (st : Cube3) : Cube3 :=
  let direction := if prime = false then RowMove.RIGHT else RowMove.LEFT
  rotate_y0 1 direction st

/-- `move_S`: `rotate_z(2, DOWN)` (UP when prime). -/
def move_S (prime : Bool) (st : Cube3) : Cube3 :=
  let direction := if prime = false then ColumnMove.DOWN else ColumnMove.UP
  rotate_z0 1 direction st

/-- `move_u`: `move_U(prime)` then `move_E(not prime)`. -/
def move_u (prime : Bool) (st : Cube3) : Cube3 :=
  move_E (!prime) (move_U prime st)

/-- `move_d`: `move_D(prime)` then `move_E(prime)`. -/
def move_d (prime : Bool) (st : Cube3) : Cube3 :=
  move_E prime (move_D prime st)

/-- `move_l`: `move_L(prime)` then `move_M(prime)`. -/
def move_l (prime : Bool) (st : Cube3) : Cube3 :=
  move_M prime (move_L prime st)

/-- `move_r`: `move_R(prime)` then `move_M(not prime)`. -/
def move_r (prime : Bool) (st : Cube3) : Cube3 :=
  move_M (!prime) (move_R prime st)

/-- `move_f`: `move_F(prime)` then `move_S(prime)`. -/
def move_f (prime : Bool) (st : Cube3) : Cube3 :=
  move_S prime (move_F prime st)

/-- `move_b`: `move_B(prime)` then `move_S(not prime)`. -/
def move_b (prime : Bool) (st : Cube3) : Cube3 :=
  move_S (!prime) (move_B prime st)

/-- `move_x`: `move_R(prime)` then `move_l(not prime)`. -/
def move_x (prime : Bool) (st : Cube3) : Cube3 :=
  move_l (!prime) (move_R prime st)

/-- `move_y`: `move_U(prime)` then `move_d(not prime)`. -/
def move_y (prime : Bool) (st : Cube3) : Cube3 :=
  move_d (!prime) (move_U prime st)

/-- `move_z` (src/src variant): `move_F(prime)` then `move_b(not prime)`. -/
def move_z (prime : Bool) (st : Cube3) : Cube3 :=
  move_b (!prime) (move_F prime st)

/-- The `self._moves` dispatch table of `CubeSimulator3x3.__init__`:
single characters mapped to the bound move functions. -/
def moves : Char → Option (Bool → Cube3 → Cube3)
  | 'U' => some move_U
  | 'D' => some move_D
  | 'L' => some move_L
  | 'R' => some move_R
  | 'F' => some move_F
  | 'B' => some move_B
  | 'M' => some move_M
  | 'E' => some move_E
  | 'S' => some move_S
  | 'u' => some move_u
  | 'd' => some move_d
  | 'l' => some move_l
  | 'r' => some move_r
  | 'f' => some move_f
  | 'b' => some move_b
  | 'x' => some move_x
  | 'y' => some move_y
  | 'z' => some move_z
  | _ => none

end CubeSimulator3x3

end RubiksCube

namespace RubiksCube

/-- The apostrophe character used as the prime modifier in move strings. -/
def primeChar : Char := Char.ofNat 39

/-- A recorded move token: the base move character plus its optional modifier
character, modelling the strings `"X"`, `"X\x27"`, `"X2"` that
`perform_moves` appends to `moves_list`. -/
abbrev Token : Type := Char × Option Char

/-- The two characters `perform_moves` concatenates for a token
(`stored_char` or `stored_char + modifier`). -/
def tokenChars (t : Token) : List Char :=
  match t.2 with
  | none => [t.1]
  | some m => [t.1, m]

namespace CubeSimulator

open CubeSimulator3x3

/-- The simulator state: the owned cube plus the moves history
(`self._cube`, `self._moves_history`). -/
structure SimState where
  cube : Cube3
  history : List (List Token)
deriving DecidableEq

/-- The state of a freshly constructed `CubeSimulator3x3`: a solved 3x3 cube
and an empty history. -/
def initState : SimState :=
  { cube := solvedCube 3, history := [] }

/-- `CubeSimulator._remove_whitespace`: drop spaces and tabs. -/
def remove_whitespace (s : List Char) : List Char :=
  s.filter (fun ch => !(ch = ' ' || ch = '\t'))

/-- `CubeSimulator.move_twice`: perform the (plain) move twice. -/
def move_twice (move : Bool → Cube3 → Cube3) (st : Cube3) : Cube3 :=
  move false (move false st)

/-- The character-scanning loop of `CubeSimulator.perform_moves`, one source
line per case: `stored` is the pending `(stored_move, stored_char)` pair,
`ml` the `moves_list` accumulator.  A raised `ValueError` is modelled as
`.error` carrying the message and the cube as already mutated at the raise
point (the Python object keeps those mutations). -/
def performMovesAux : List Char → Option ((Bool → Cube3 → Cube3) × Char) →
    List Token → Cube3 → Except (String × Cube3) (Cube3 × List Token)
  | [], stored, ml, cube =>
    match stored with
    | some (fn, sc) => .ok (fn false cube, ml ++ [(sc, none)])
    | none => .ok (cube, ml)
  | ch :: rest, stored, ml, cube =>
    if ch = '2' then
      match stored with
      | some (fn, sc) =>
          performMovesAux rest none (ml ++ [(sc, some '2')]) (move_twice fn cube)
      | none => .error ("Typed 2 with nothing/invalid value before it", cube)
    else if ch = primeChar then
      match stored with
      | some (fn, sc) =>
          performMovesAux rest none (ml ++ [(sc, some primeChar)]) (fn true cube)
      | none => .error ("Typed the prime modifier with nothing/invalid value before it", cube)
    else
      let flushed : Cube3 × List Token :=
        match stored with
        | some (fn, sc) => (fn false cube, ml ++ [(sc, none)])
        | none => (cube, ml)
      match CubeSimulator3x3.moves ch with
      | some fn => performMovesAux rest (some (fn, ch)) flushed.2 flushed.1
      | none => .error ("Invalid character", flushed.1)

/-- `CubeSimulator.perform_moves`: strip whitespace, run the scanning loop,
and on success append the executed token list to the history when
`record` is set and the list is non-empty.  A failure leaves the history
untouched and the cube as mutated so far. -/
def perform_moves (record : Bool) (s : List Char) (st : SimState) :
    Except (String × SimState) SimState :=
  match performMovesAux (remove_whitespace s) none [] st.cube with
  | .error (msg, cube') => .error (msg, { cube := cube', history := st.history })
  | .ok (cube', moves_list) =>
      .ok { cube := cube',
            history :=
              if record ∧ 0 < moves_list.length then st.history ++ [moves_list]
              else st.history }

/-- One step of `CubeSimulator.get_inverse_sequence`: the characters
contributed for one token (modifier flipped plain↔prime, double kept;
a malformed modifier contributes nothing, as no `else` branch exists). -/
def inverse_token_chars (t : Token) : List Char :=
  match t.2 with
  | none => [t.1, primeChar]
  | some m => if m = primeChar then [t.1] else if m = '2' then [t.1, m] else []

/-- `CubeSimulator.get_inverse_sequence`: walk the recorded tokens from last
to first, emitting each token's inverse characters. -/
def get_inverse_sequence (moves_sequence : List Token) : List Char :=
  moves_sequence.reverse.flatMap inverse_token_chars

/-- `CubeSimulator.undo_moves_sequence`: raise on empty history, else pop the
most recent sequence, compute its inverse and perform it with
`record=False`; returns the inverse sequence alongside the new state. -/
def undo_moves_sequence (st : SimState) : Except (String × SimState) (SimState × List Char) :=
  match st.history.getLast? with
  | none => .error ("No moves sequence to undo.", st)
  | some previous_moves_sequence =>
      let inverse_sequence := get_inverse_sequence previous_moves_sequence
      match perform_moves false inverse_sequence
          { st with history := st.history.dropLast } with
      | .error e => .error e
      | .ok st' => .ok (st', inverse_sequence)

/-- The effect of one recorded token when replayed: plain executes the move,
prime executes it with `prime=True`, double executes it twice.  (Pure
specification used to state what `perform_moves` executed.) -/
def applyToken (t : Token) (cube : Cube3) : Cube3 :=
  match CubeSimulator3x3.moves t.1 with
  | none => cube
  | some fn =>
    match t.2 with
    | none => fn false cube
    | some m =>
        if m = primeChar then fn true cube
        else if m = '2' then move_twice fn cube
        else cube

/-- Replay a token list left to right. -/
def applyTokens (ts : List Token) (cube : Cube3) : Cube3 :=
  ts.foldl (fun c t => applyToken t c) cube

/-- The tokens `perform_moves` executes before returning or failing:
the same scan as `performMovesAux`, with only the pending character kept. -/
def execTokens : List Char → Option Char → List Token
  | [], none => []
  | [], some sc => [(sc, none)]
  | ch :: rest, stored =>
    if ch = '2' then
      match stored with
      | some sc => (sc, some '2') :: execTokens rest none
      | none => []
    else if ch = primeChar then
      match stored with
      | some sc => (sc, some primeChar) :: execTokens rest none
      | none => []
    else
      let flushed : List Token :=
        match stored with
        | some sc => [(sc, none)]
        | none => []
      match CubeSimulator3x3.moves ch with
      | some _ => flushed ++ execTokens rest (some ch)
      | none => flushed

/-- The modifier flip performed by `get_inverse_sequence`:
plain becomes prime, prime becomes plain, double stays double. -/
def flipToken (t : Token) : Token :=
  match t.2 with
  | none => (t.1, some primeChar)
  | some m => if m = primeChar then (t.1, none) else (t.1, some m)

/-- Well-formedness of a recorded token: its character is in the move table
and its modifier is absent, prime, or double.  Every token recorded by
`perform_moves` has this shape. -/
def WFToken (t : Token) : Prop :=
  (CubeSimulator3x3.moves t.1).isSome ∧
    (t.2 = none ∨ t.2 = some primeChar ∨ t.2 = some '2')

instance (t : Token) : Decidable (WFToken t) :=
  inferInstanceAs (Decidable (_ ∧ _))

end CubeSimulator

end RubiksCube

namespace RubiksCube

/-- Python exceptions raised by the cube construction/access code:
`ValueError(msg)` and `IndexError`. -/
inductive PyErr where
  | valueError (msg : String)
  | indexError
deriving DecidableEq, Repr

namespace CubeList

/-- `Cube.get_string_from_colour`: the single-character colour code. -/
def get_string_from_colour : Colour → Char
  | Colour.GREEN => 'G'
  | Colour.RED => 'R'
  | Colour.BLUE => 'B'
  | Colour.ORANGE => 'O'
  | Colour.WHITE => 'W'
  | Colour.YELLOW => 'Y'

/-- `Cube.get_colour_from_string`: decode a single colour code;
any other character raises `ValueError("Invalid string")`. -/
def get_colour_from_string (colour_string : Char) : Except PyErr Colour :=
  if colour_string = 'G' then .ok Colour.GREEN
  else if colour_string = 'R' then .ok Colour.RED
  else if colour_string = 'B' then .ok Colour.BLUE
  else if colour_string = 'O' then .ok Colour.ORANGE
  else if colour_string = 'W' then .ok Colour.WHITE
  else if colour_string = 'Y' then .ok Colour.YELLOW
  else .error (.valueError "Invalid string")

/-- `Cube.create_completed_cube` / `create_solved_cube` body (after the
positive-size check): `[[[colour] * size for _ in range(size)] for colour
in Colour]`. -/
def create_completed_cube (size : Nat) : List (List (List Colour)) :=
  colourOrder.map (fun colour => List.replicate size (List.replicate size colour))

/-- `Cube.get_string_representation`: iterate every square (the CubeIterator
walks face-major, row-major, column-minor — exactly the nested-list order)
and emit its colour code. -/
def get_string_representation (cube : List (List (List Colour))) : List Char :=
  cube.flatten.flatten.map get_string_from_colour

/-- The `for square in range(size)` loop of
`create_cube_from_string_representation`: read `count` characters of `s`
starting at index `i` (an out-of-range read raises IndexError), decoding
each; returns the row and the next index. -/
def readSquares (s : List Char) : Nat → Nat → Except PyErr (List Colour × Nat)
  | 0, i => .ok ([], i)
  | k + 1, i =>
    match s.get? i with
    | none => .error .indexError
    | some ch =>
      match get_colour_from_string ch with
      | .error e => .error e
      | .ok colour =>
        match readSquares s k (i + 1) with
        | .error e => .error e
        | .ok (rest, i') => .ok (colour :: rest, i')

/-- The `for row in range(size)` loop: read `count` rows of `size` squares. -/
def readRows (s : List Char) (size : Nat) : Nat → Nat → Except PyErr (List (List Colour) × Nat)
  | 0, i => .ok ([], i)
  | k + 1, i =>
    match readSquares s size i with
    | .error e => .error e
    | .ok (row, i1) =>
      match readRows s size k i1 with
      | .error e => .error e
      | .ok (rest, i2) => .ok (row :: rest, i2)

/-- The `for face in range(Cube.FACES_IN_A_CUBE)` loop: read `count` faces
of `size` rows each. -/
def readFaces (s : List Char) (size : Nat) : Nat → Nat →
    Except PyErr (List (List (List Colour)) × Nat)
  | 0, i => .ok ([], i)
  | k + 1, i =>
    match readRows s size size i with
    | .error e => .error e
    | .ok (face, i1) =>
      match readFaces s size k i1 with
      | .error e => .error e
      | .ok (rest, i2) => .ok (face :: rest, i2)

/-- `Cube.create_cube_from_string_representation`: positive-size check, then
the triple loop reading the characters of the string sequentially with a
running index.  Note: the only length check is the sequential reads
themselves — a short string raises IndexError mid-read, while characters
beyond the first 6·size² are never read at all. -/
def create_cube_from_string_representation (size : Nat) (s : List Char) :
    Except PyErr (List (List (List Colour))) :=
  if size = 0 then .error (.valueError "Invalid size")
  else
    match readFaces s size 6 0 with
    | .error e => .error e
    | .ok (cube_list, _) => .ok cube_list

/-- Python list subscription `l[i]` for `int` indices: indices in
`[0, len)` read directly, indices in `[-len, -1]` wrap around to
`len + i`, anything else raises IndexError (here: `none`). -/
def pyGet {α : Type} (l : List α) (i : Int) : Option α :=
  if 0 ≤ i then l.get? i.toNat
  else if 0 ≤ i + l.length then l.get? (i + l.length).toNat
  else none

/-- `Cube.get_row`: `self._cube[face][row]` with Python list indexing. -/
def get_row (cube : List (List (List Colour))) (face row : Int) : Option (List Colour) :=
  (pyGet cube face).bind (fun face_list => pyGet face_list row)

/-- `Cube.get_square`: `self._cube[face][row][column]`. -/
def get_square (cube : List (List (List Colour))) (face row column : Int) : Option Colour :=
  ((pyGet cube face).bind (fun face_list => pyGet face_list row)).bind
    (fun row_list => pyGet row_list column)

/-- `Cube.get_column`: `for row in range(self._size):
column_list.append(self._cube[face][row][column])` — the first failing
subscription raises. -/
def get_column (size : Nat) (cube : List (List (List Colour))) (face column : Int) :
    Option (List Colour) :=
  (List.range size).mapM (fun row =>
    ((pyGet cube face).bind (fun face_list => pyGet face_list (Int.ofNat row))).bind
      (fun row_list => pyGet row_list column))

/-- The shape invariant of a size-n cube's nested list: 6 faces, each n rows
of n squares. -/
def Shaped (n : Nat) (cube : List (List (List Colour))) : Prop :=
  cube.length = 6 ∧ ∀ face ∈ cube, face.length = n ∧ ∀ row ∈ face, row.length = n

instance {n : Nat} (cube : List (List (List Colour))) : Decidable (Shaped n cube) :=
  inferInstanceAs (Decidable (_ ∧ _))

/-- Reading position j of the string succeeds: the character exists and is
a valid colour code. -/
def validAt (s : List Char) (j : Nat) : Prop :=
  ∃ ch, s.get? j = some ch ∧ ∃ col, get_colour_from_string ch = .ok col

end CubeList

/-- The index set of all squares of a size-n cube. -/
abbrev SquareIdx (n : Nat) : Type := Fin 6 × Fin n × Fin n

/-- The number of squares of the given colour over the whole cube. -/
def countColour {n : Nat} (st : CubeF n) (colour : Colour) : Nat :=
  (Finset.univ.filter (fun i : SquareIdx n => st i.1 i.2.1 i.2.2 = colour)).card

/-- Read the square at an index triple. -/
def applyIdx {n : Nat} (st : CubeF n) (i : SquareIdx n) : Colour :=
  st i.1 i.2.1 i.2.2

/-- The source index each cell of `Cube._rotate_face` is read from. -/
def spinSrc {n : Nat} (face : Fin 6) (dir : RotateMove) (i : SquareIdx n) : SquareIdx n :=
  if i.1 = face then
    match dir with
    | RotateMove.ANTICLOCKWISE => (face, i.2.2, i.2.1.rev)
    | RotateMove.CLOCKWISE => (face, i.2.2.rev, i.2.1)
  else i

/-- The source index of each cell after the four strip writes of
`Cube.rotate_x` (conditions listed outermost write first). -/
def xStripSrc {n : Nat} (col : Fin n) (dir : ColumnMove) (i : SquareIdx n) : SquareIdx n :=
  let f := i.1
  let r := i.2.1
  let c := i.2.2
  match dir with
  | ColumnMove.UP =>
    if f = 5 ∧ c = col then (3, r.rev, col.rev)
    else if f = 3 ∧ c = col.rev then (4, r.rev, col)
    else if f = 4 ∧ c = col then (1, r, col)
    else if f = 1 ∧ c = col then (5, r, col)
    else i
  | ColumnMove.DOWN =>
    if f = 5 ∧ c = col then (1, r, col)
    else if f = 3 ∧ c = col.rev then (5, r.rev, col)
    else if f = 4 ∧ c = col then (3, r.rev, col.rev)
    else if f = 1 ∧ c = col then (4, r, col)
    else i

/-- The source index of each cell of `Cube.rotate_x`: the boundary face
spin (faces 0 and 2) composed with the strip writes. -/
def xSrc {n : Nat} (col : Fin n) (dir : ColumnMove) (i : SquareIdx n) : SquareIdx n :=
  if col.val = 0 then
    xStripSrc col dir (spinSrc 0 (match dir with
      | ColumnMove.UP => RotateMove.ANTICLOCKWISE
      | ColumnMove.DOWN => RotateMove.CLOCKWISE) i)
  else if col.val = n - 1 then
    xStripSrc col dir (spinSrc 2 (match dir with
      | ColumnMove.UP => RotateMove.CLOCKWISE
      | ColumnMove.DOWN => RotateMove.ANTICLOCKWISE) i)
  else xStripSrc col dir i

/-- The source index after the four row writes of `Cube.rotate_y`. -/
def yStripSrc {n : Nat} (row : Fin n) (dir : RowMove) (i : SquareIdx n) : SquareIdx n :=
  let f := i.1
  let r := i.2.1
  let c := i.2.2
  match dir with
  | RowMove.LEFT =>
    if f = 3 ∧ r = row then (0, row, c)
    else if f = 2 ∧ r = row then (3, row, c)
    else if f = 1 ∧ r = row then (2, row, c)
    else if f = 0 ∧ r = row then (1, row, c)
    else i
  | RowMove.RIGHT =>
    if f = 3 ∧ r = row then (2, row, c)
    else if f = 2 ∧ r = row then (1, row, c)
    else if f = 1 ∧ r = row then (0, row, c)
    else if f = 0 ∧ r = row then (3, row, c)
    else i

/-- The source index of each cell of `Cube.rotate_y`. -/
def ySrc {n : Nat} (row : Fin n) (dir : RowMove) (i : SquareIdx n) : SquareIdx n :=
  if row.val = 0 then
    yStripSrc row dir (spinSrc 4 (match dir with
      | RowMove.LEFT => RotateMove.CLOCKWISE
      | RowMove.RIGHT => RotateMove.ANTICLOCKWISE) i)
  else if row.val = n - 1 then
    yStripSrc row dir (spinSrc 5 (match dir with
      | RowMove.LEFT => RotateMove.ANTICLOCKWISE
      | RowMove.RIGHT => RotateMove.CLOCKWISE) i)
  else yStripSrc row dir i

/-- The source index after the four strip writes of `Cube.rotate_z`. -/
def zStripSrc {n : Nat} (col : Fin n) (dir : ColumnMove) (i : SquareIdx n) : SquareIdx n :=
  let f := i.1
  let r := i.2.1
  let c := i.2.2
  match dir with
  | ColumnMove.UP =>
    if f = 5 ∧ r = col then (0, c, col.rev)
    else if f = 0 ∧ c = col.rev then (4, col.rev, r.rev)
    else if f = 4 ∧ r = col.rev then (2, c, col)
    else if f = 2 ∧ c = col then (5, col, r.rev)
    else i
  | ColumnMove.DOWN =>
    if f = 5 ∧ r = col then (2, c.rev, col)
    else if f = 0 ∧ c = col.rev then (5, col, r)
    else if f = 4 ∧ r = col.rev then (0, c.rev, col.rev)
    else if f = 2 ∧ c = col then (4, col.rev, r)
    else i

/-- The source index of each cell of `Cube.rotate_z`. -/
def zSrc {n : Nat} (col : Fin n) (dir : ColumnMove) (i : SquareIdx n) : SquareIdx n :=
  if col.val = 0 then
    zStripSrc col dir (spinSrc 1 (match dir with
      | ColumnMove.UP => RotateMove.ANTICLOCKWISE
      | ColumnMove.DOWN => RotateMove.CLOCKWISE) i)
  else if col.val = n - 1 then
    zStripSrc col dir (spinSrc 3 (match dir with
      | ColumnMove.UP => RotateMove.CLOCKWISE
      | ColumnMove.DOWN => RotateMove.ANTICLOCKWISE) i)
  else zStripSrc col dir i

/-- The face geometrically opposite a face (0↔2, 1↔3, 4↔5). -/
def oppositeFace : Fin 6 → Fin 6
  | 0 => 2
  | 1 => 3
  | 2 => 0
  | 3 => 1
  | 4 => 5
  | 5 => 4

/-- The checkerboard layout: every face alternates its own colour with the
colour of its geometrically opposite face. -/
def checkerboardCube : Cube3 := fun f r c =>
  if (r.val + c.val) % 2 = 0 then faceColour f else faceColour (oppositeFace f)

end RubiksCube

namespace RubiksCube

/-- `Cube.rotate_x` public entry of the LEGACY top-level src/cube.py:
same 1-indexed validation, legacy body. -/
def Cube.rotate_x_legacy {n : Nat} (column : Nat) (direction : ColumnMove) (st : CubeF n) :
    Except String (CubeF n) :=
  if h : 1 ≤ column ∧ column ≤ n then
    .ok (Cube.rotate_x0_legacy ⟨column - 1, by omega⟩ direction st)
  else .error "Invalid column"

/-- A concrete 3x3 cube whose columns are not palindromic (row 0 green, the
rest red): a witness state for rotation counterexamples. -/
def stripedCube : Cube3 := fun _ r _ =>
  if r = 0 then Colour.GREEN else Colour.RED

end RubiksCube

-- ===== Theorems: 3x3 move algebra =====

namespace RubiksCube

namespace CubeSimulator3x3

/-- `move_U` composed with its prime variant (in either order) is the
identity, and four plain applications are the identity. -/
theorem move_U_inv (st : Cube3) :
    move_U true (move_U false st) = st ∧ move_U false (move_U true st) = st ∧
    move_U false (move_U false (move_U false (move_U false st))) = st := by
  refine ⟨?_, ?_, ?_⟩ <;> (funext f r c; fin_cases f <;> fin_cases r <;> fin_cases c <;> rfl)

/-- `move_D` composed with its prime variant (in either order) is the
identity, and four plain applications are the identity. -/
theorem move_D_inv (st : Cube3) :
    move_D true (move_D false st) = st ∧ move_D false (move_D true st) = st ∧
    move_D false (move_D false (move_D false (move_D false st))) = st := by
  refine ⟨?_, ?_, ?_⟩ <;> (funext f r c; fin_cases f <;> fin_cases r <;> fin_cases c <;> rfl)

/-- `move_L` composed with its prime variant (in either order) is the
identity, and four plain applications are the identity. -/
theorem move_L_inv (st : Cube3) :
    move_L true (move_L false st) = st ∧ move_L false (move_L true st) = st ∧
    move_L false (move_L false (move_L false (move_L false st))) = st := by
  refine ⟨?_, ?_, ?_⟩ <;> (funext f r c; fin_cases f <;> fin_cases r <;> fin_cases c <;> rfl)

/-- `move_R` composed with its prime variant (in either order) is the
identity, and four plain applications are the identity. -/
theorem move_R_inv (st : Cube3) :
    move_R true (move_R false st) = st ∧ move_R false (move_R true st) = st ∧
    move_R false (move_R false (move_R false (move_R false st))) = st := by
  refine ⟨?_, ?_, ?_⟩ <;> (funext f r c; fin_cases f <;> fin_cases r <;> fin_cases c <;> rfl)

/-- `move_F` composed with its prime variant (in either order) is the
identity, and four plain applications are the identity. -/
theorem move_F_inv (st : Cube3) :
    move_F true (move_F false st) = st ∧ move_F false (move_F true st) = st ∧
    move_F false (move_F false (move_F false (move_F false st))) = st := by
  refine ⟨?_, ?_, ?_⟩ <;> (funext f r c; fin_cases f <;> fin_cases r <;> fin_cases c <;> rfl)

/-- `move_B` composed with its prime variant (in either order) is the
identity, and four plain applications are the identity. -/
theorem move_B_inv (st : Cube3) :
    move_B true (move_B false st) = st ∧ move_B false (move_B true st) = st ∧
    move_B false (move_B false (move_B false (move_B false st))) = st := by
  refine ⟨?_, ?_, ?_⟩ <;> (funext f r c; fin_cases f <;> fin_cases r <;> fin_cases c <;> rfl)

/-- `move_M` composed with its prime variant (in either order) is the
identity, and four plain applications are the identity. -/
theorem move_M_inv (st : Cube3) :
    move_M true (move_M false st) = st ∧ move_M false (move_M true st) = st ∧
    move_M false (move_M false (move_M false (move_M false st))) = st := by
  refine ⟨?_, ?_, ?_⟩ <;> (funext f r c; fin_cases f <;> fin_cases r <;> fin_cases c <;> rfl)

/-- `move_E` composed with its prime variant (in either order) is the
identity, and four plain applications are the identity. -/
theorem move_E_inv (st : Cube3) :
    move_E true (move_E false st) = st ∧ move_E false (move_E true st) = st ∧
    move_E false (move_E false (move_E false (move_E false st))) = st := by
  refine ⟨?_, ?_, ?_⟩ <;> (funext f r c; fin_cases f <;> fin_cases r <;> fin_cases c <;> rfl)

/-- `move_S` composed with its prime variant (in either order) is the
identity, and four plain applications are the identity. -/
theorem move_S_inv (st : Cube3) :
    move_S true (move_S false st) = st ∧ move_S false (move_S true st) = st ∧
    move_S false (move_S false (move_S false (move_S false st))) = st := by
  refine ⟨?_, ?_, ?_⟩ <;> (funext f r c; fin_cases f <;> fin_cases r <;> fin_cases c <;> rfl)

/-- `move_u` composed with its prime variant (in either order) is the
identity, and four plain applications are the identity. -/
theorem move_u_inv (st : Cube3) :
    move_u true (move_u false st) = st ∧ move_u false (move_u true st) = st ∧
    move_u false (move_u false (move_u false (move_u false st))) = st := by
  refine ⟨?_, ?_, ?_⟩ <;> (funext f r c; fin_cases f <;> fin_cases r <;> fin_cases c <;> rfl)

/-- `move_d` composed with its prime variant (in either order) is the
identity, and four plain applications are the identity. -/
theorem move_d_inv (st : Cube3) :
    move_d true (move_d false st) = st ∧ move_d false (move_d true st) = st ∧
    move_d false (move_d false (move_d false (move_d false st))) = st := by
  refine ⟨?_, ?_, ?_⟩ <;> (funext f r c; fin_cases f <;> fin_cases r <;> fin_cases c <;> rfl)

/-- `move_l` composed with its prime variant (in either order) is the
identity, and four plain applications are the identity. -/
theorem move_l_inv (st : Cube3) :
    move_l true (move_l false st) = st ∧ move_l false (move_l true st) = st ∧
    move_l false (move_l false (move_l false (move_l false st))) = st := by
  refine ⟨?_, ?_, ?_⟩ <;> (funext f r c; fin_cases f <;> fin_cases r <;> fin_cases c <;> rfl)

/-- `move_r` composed with its prime variant (in either order) is the
identity, and four plain applications are the identity. -/
theorem move_r_inv (st : Cube3) :
    move_r true (move_r false st) = st ∧ move_r false (move_r true st) = st ∧
    move_r false (move_r false (move_r false (move_r false st))) = st := by
  refine ⟨?_, ?_, ?_⟩ <;> (funext f r c; fin_cases f <;> fin_cases r <;> fin_cases c <;> rfl)

/-- `move_f` composed with its prime variant (in either order) is the
identity, and four plain applications are the identity. -/
theorem move_f_inv (st : Cube3) :
    move_f true (move_f false st) = st ∧ move_f false (move_f true st) = st ∧
    move_f false (move_f false (move_f false (move_f false st))) = st := by
  refine ⟨?_, ?_, ?_⟩ <;> (funext f r c; fin_cases f <;> fin_cases r <;> fin_cases c <;> rfl)

/-- `move_b` composed with its prime variant (in either order) is the
identity, and four plain applications are the identity. -/
theorem move_b_inv (st : Cube3) :
    move_b true (move_b false st) = st ∧ move_b false (move_b true st) = st ∧
    move_b false (move_b false (move_b false (move_b false st))) = st := by
  refine ⟨?_, ?_, ?_⟩ <;> (funext f r c; fin_cases f <;> fin_cases r <;> fin_cases c <;> rfl)

/-- `move_x` composed with its prime variant (in either order) is the
identity, and four plain applications are the identity. -/
theorem move_x_inv (st : Cube3) :
    move_x true (move_x false st) = st ∧ move_x false (move_x true st) = st ∧
    move_x false (move_x false (move_x false (move_x false st))) = st := by
  refine ⟨?_, ?_, ?_⟩ <;> (funext f r c; fin_cases f <;> fin_cases r <;> fin_cases c <;> rfl)

/-- `move_y` composed with its prime variant (in either order) is the
identity, and four plain applications are the identity. -/
theorem move_y_inv (st : Cube3) :
    move_y true (move_y false st) = st ∧ move_y false (move_y true st) = st ∧
    move_y false (move_y false (move_y false (move_y false st))) = st := by
  refine ⟨?_, ?_, ?_⟩ <;> (funext f r c; fin_cases f <;> fin_cases r <;> fin_cases c <;> rfl)

/-- `move_z` composed with its prime variant (in either order) is the
identity, and four plain applications are the identity. -/
theorem move_z_inv (st : Cube3) :
    move_z true (move_z false st) = st ∧ move_z false (move_z true st) = st ∧
    move_z false (move_z false (move_z false (move_z false st))) = st := by
  refine ⟨?_, ?_, ?_⟩ <;> (funext f r c; fin_cases f <;> fin_cases r <;> fin_cases c <;> rfl)

/-- Every move function in the 3x3 dispatch table is undone by its prime
variant (in either order), and has order dividing 4. -/
theorem moves_inv (c : Char) (fn : Bool → Cube3 → Cube3)
    (h : CubeSimulator3x3.moves c = some fn) (st : Cube3) :
    fn true (fn false st) = st ∧ fn false (fn true st) = st ∧
    fn false (fn false (fn false (fn false st))) = st := by
  unfold CubeSimulator3x3.moves at h
  split at h <;> cases h
  · exact move_U_inv st
  · exact move_D_inv st
  · exact move_L_inv st
  · exact move_R_inv st
  · exact move_F_inv st
  · exact move_B_inv st
  · exact move_M_inv st
  · exact move_E_inv st
  · exact move_S_inv st
  · exact move_u_inv st
  · exact move_d_inv st
  · exact move_l_inv st
  · exact move_r_inv st
  · exact move_f_inv st
  · exact move_b_inv st
  · exact move_x_inv st
  · exact move_y_inv st
  · exact move_z_inv st

end CubeSimulator3x3

end RubiksCube

namespace RubiksCube

open CubeSimulator CubeSimulator3x3

/-- C6: for every move m in the configured 3x3 move alphabet
(U,D,L,R,F,B,M,E,S,u,d,l,r,f,b,x,y,z) and every cube state, performing m
followed by its prime variant restores the cube to exactly the state it
had before m was performed. -/
theorem c6_move_then_prime_restores (c : Char) (fn : Bool → Cube3 → Cube3)
    (h : CubeSimulator3x3.moves c = some fn) (st : Cube3) :
    fn true (fn false st) = st :=
  (CubeSimulator3x3.moves_inv c fn h st).1

/-- Witness for C6 at the move U and the solved cube. -/
theorem c6_move_then_prime_restores_witness :
    move_U true (move_U false (solvedCube 3)) = solvedCube 3 :=
  c6_move_then_prime_restores 'U' move_U rfl (solvedCube 3)

/-- C3: starting from a solved 3x3 cube, performing "M2E2S2" and performing
"MESMES" both produce the identical layout, in which every face is a
checkerboard of its own original colour and the colour of its geometric
opposite face. -/
theorem c3_checkerboard_patterns :
    ∃ st1 st2 : SimState,
      perform_moves true "M2E2S2".toList initState = .ok st1 ∧
      perform_moves true "MESMES".toList initState = .ok st2 ∧
      st1.cube = checkerboardCube ∧ st2.cube = checkerboardCube := by
  refine ⟨_, _, rfl, rfl, ?_, ?_⟩ <;>
    (funext f r c; fin_cases f <;> fin_cases r <;> fin_cases c <;> rfl)

/-- C1 (the legacy top-level src/cube.py variant breaks 4-fold periodicity):
four UP applications of the legacy `rotate_x` on column 2 of a 3x3 cube do
NOT restore the state — each affected column comes back reversed — while
four applications of the current src/src/cube.py `rotate_x` on the same
column and cube restore it exactly. -/
theorem c1_legacy_rotate_x_breaks_periodicity :
    Cube.rotate_x_legacy (n := 3) 2 ColumnMove.UP stripedCube
      = .ok (Cube.rotate_x0_legacy 1 ColumnMove.UP stripedCube) ∧
    Cube.rotate_x0_legacy 1 ColumnMove.UP (Cube.rotate_x0_legacy 1 ColumnMove.UP
      (Cube.rotate_x0_legacy 1 ColumnMove.UP
        (Cube.rotate_x0_legacy 1 ColumnMove.UP stripedCube))) ≠ stripedCube ∧
    Cube.rotate_x0 1 ColumnMove.UP (Cube.rotate_x0 1 ColumnMove.UP
      (Cube.rotate_x0 1 ColumnMove.UP
        (Cube.rotate_x0 1 ColumnMove.UP stripedCube))) = stripedCube := by
  refine ⟨rfl, ?_, ?_⟩
  · intro h
    have h1 := congrFun (congrFun (congrFun h 1) 0) 1
    exact absurd h1 (by decide)
  · funext f r c; fin_cases f <;> fin_cases r <;> fin_cases c <;> rfl

end RubiksCube

-- ===== Theorems: move-string parsing (perform_moves) =====

namespace RubiksCube

namespace CubeSimulator

open CubeSimulator3x3

lemma moves_two : CubeSimulator3x3.moves '2' = none := rfl

lemma moves_prime : CubeSimulator3x3.moves primeChar = none := rfl

lemma isSome_moves_ne {ch : Char} (h : (CubeSimulator3x3.moves ch).isSome) :
    ch ≠ '2' ∧ ch ≠ primeChar := by
  constructor <;> rintro rfl
  · rw [moves_two] at h; exact Bool.noConfusion h
  · rw [moves_prime] at h; exact Bool.noConfusion h

lemma applyTokens_nil (cube : Cube3) : applyTokens [] cube = cube := rfl

lemma applyTokens_cons (t : Token) (ts : List Token) (cube : Cube3) :
    applyTokens (t :: ts) cube = applyTokens ts (applyToken t cube) := rfl

lemma applyTokens_append (ts us : List Token) (cube : Cube3) :
    applyTokens (ts ++ us) cube = applyTokens us (applyTokens ts cube) :=
  List.foldl_append _ _ _ _

lemma applyToken_plain {fn : Bool → Cube3 → Cube3} {sc : Char}
    (h : CubeSimulator3x3.moves sc = some fn) (cube : Cube3) :
    applyToken (sc, none) cube = fn false cube := by
  unfold applyToken; rw [h]

lemma applyToken_prime {fn : Bool → Cube3 → Cube3} {sc : Char}
    (h : CubeSimulator3x3.moves sc = some fn) (cube : Cube3) :
    applyToken (sc, some primeChar) cube = fn true cube := by
  unfold applyToken; rw [h]; exact rfl

lemma applyToken_double {fn : Bool → Cube3 → Cube3} {sc : Char}
    (h : CubeSimulator3x3.moves sc = some fn) (cube : Cube3) :
    applyToken (sc, some '2') cube = move_twice fn cube := by
  unfold applyToken; rw [h]; exact rfl

/-- The scanning loop executes exactly the tokens described by `execTokens`:
on error the cube has the executed prefix applied, on success the cube has
all tokens applied and `moves_list` extends the accumulator with them. -/
lemma performMovesAux_spec (chars : List Char) :
    ∀ (stored : Option ((Bool → Cube3 → Cube3) × Char)) (ml : List Token) (cube : Cube3),
    (∀ fn sc, stored = some (fn, sc) → CubeSimulator3x3.moves sc = some fn) →
    (∀ msg cube', performMovesAux chars stored ml cube = .error (msg, cube') →
       cube' = applyTokens (execTokens chars (stored.map Prod.snd)) cube) ∧
    (∀ cube' ml', performMovesAux chars stored ml cube = .ok (cube', ml') →
       cube' = applyTokens (execTokens chars (stored.map Prod.snd)) cube ∧
       ml' = ml ++ execTokens chars (stored.map Prod.snd)) := by
  induction chars with
  | nil =>
    intro stored ml cube hst
    cases stored with
    | none =>
      refine ⟨fun msg cube' h => Except.noConfusion h, fun cube' ml' h => ?_⟩
      injection h with h'
      injection h' with hcube hml
      subst hcube; subst hml
      exact ⟨rfl, by simp [execTokens]⟩
    | some p =>
      obtain ⟨fn, sc⟩ := p
      refine ⟨fun msg cube' h => Except.noConfusion h, fun cube' ml' h => ?_⟩
      injection h with h'
      injection h' with hcube hml
      subst hcube; subst hml
      constructor
      · show fn false cube = applyTokens (execTokens [] (some sc)) cube
        have hex : execTokens [] (some sc) = [(sc, none)] := rfl
        rw [hex, applyTokens_cons, applyTokens_nil, applyToken_plain (hst fn sc rfl)]
      · rfl
  | cons ch rest ih =>
    intro stored ml cube hst
    by_cases h2 : ch = '2'
    · subst h2
      cases stored with
      | none =>
        simp only [Option.map_some', Option.map_none']
        refine ⟨fun msg cube' h => ?_, fun cube' ml' h => ?_⟩
        · injection h with h'
          injection h' with hmsg hcube
          subst hcube
          rfl
        · exact Except.noConfusion h
      | some p =>
        obtain ⟨fn, sc⟩ := p
        have haux : performMovesAux ('2' :: rest) (some (fn, sc)) ml cube
            = performMovesAux rest none (ml ++ [(sc, some '2')]) (move_twice fn cube) := rfl
        have hex : execTokens ('2' :: rest) (some sc)
            = (sc, some '2') :: execTokens rest none := rfl
        have IH := ih none (ml ++ [(sc, some '2')]) (move_twice fn cube)
          (fun fn' sc' hh => Option.noConfusion hh)
        simp only [Option.map_some', Option.map_none'] at IH
        simp only [Option.map_some', Option.map_none']
        refine ⟨fun msg cube' h => ?_, fun cube' ml' h => ?_⟩
        · rw [haux] at h
          have := IH.1 msg cube' h
          rw [this, hex, applyTokens_cons, applyToken_double (hst fn sc rfl)]
        · rw [haux] at h
          obtain ⟨hc, hm⟩ := IH.2 cube' ml' h
          refine ⟨?_, ?_⟩
          · rw [hc, hex, applyTokens_cons, applyToken_double (hst fn sc rfl)]
          · rw [hm, hex]
            simp
    · by_cases hp : ch = primeChar
      · subst hp
        have hne2 : primeChar ≠ '2' := by decide
        cases stored with
        | none =>
          have haux : performMovesAux (primeChar :: rest) none ml cube
              = .error ("Typed the prime modifier with nothing/invalid value before it", cube) := rfl
          have hex : execTokens (primeChar :: rest) (none : Option Char) = [] := rfl
          simp only [Option.map_some', Option.map_none']
          refine ⟨fun msg cube' h => ?_, fun cube' ml' h => ?_⟩
          · rw [haux] at h
            injection h with h'
            injection h' with hmsg hcube
            subst hcube
            rw [hex, applyTokens_nil]
          · rw [haux] at h
            exact Except.noConfusion h
        | some p =>
          obtain ⟨fn, sc⟩ := p
          have haux : performMovesAux (primeChar :: rest) (some (fn, sc)) ml cube
              = performMovesAux rest none (ml ++ [(sc, some primeChar)]) (fn true cube) := rfl
          have hex : execTokens (primeChar :: rest) (some sc)
              = (sc, some primeChar) :: execTokens rest none := rfl
          have IH := ih none (ml ++ [(sc, some primeChar)]) (fn true cube)
            (fun fn' sc' hh => Option.noConfusion hh)
          simp only [Option.map_some', Option.map_none'] at IH
          simp only [Option.map_some', Option.map_none']
          refine ⟨fun msg cube' h => ?_, fun cube' ml' h => ?_⟩
          · rw [haux] at h
            have := IH.1 msg cube' h
            rw [this, hex, applyTokens_cons, applyToken_prime (hst fn sc rfl)]
          · rw [haux] at h
            obtain ⟨hc, hm⟩ := IH.2 cube' ml' h
            refine ⟨?_, ?_⟩
            · rw [hc, hex, applyTokens_cons, applyToken_prime (hst fn sc rfl)]
            · rw [hm, hex]
              simp
      · -- a letter: flush any pending move, then look the letter up
        cases stored with
        | none =>
          cases hmv : CubeSimulator3x3.moves ch with
          | none =>
            have haux : performMovesAux (ch :: rest) none ml cube
                = .error ("Invalid character", cube) := by
              simp only [performMovesAux, if_neg h2, if_neg hp, hmv]
            have hex : execTokens (ch :: rest) none = [] := by
              simp only [execTokens, if_neg h2, if_neg hp, hmv]
            simp only [Option.map_some', Option.map_none']
            refine ⟨fun msg cube' h => ?_, fun cube' ml' h => ?_⟩
            · rw [haux] at h
              injection h with h'
              injection h' with hmsg hcube
              subst hcube
              rw [hex, applyTokens_nil]
            · rw [haux] at h
              exact Except.noConfusion h
          | some fn =>
            have haux : performMovesAux (ch :: rest) none ml cube
                = performMovesAux rest (some (fn, ch)) ml cube := by
              simp only [performMovesAux, if_neg h2, if_neg hp, hmv]
            have hex : execTokens (ch :: rest) none = execTokens rest (some ch) := by
              simp only [execTokens, if_neg h2, if_neg hp, hmv]
              rfl
            have IH := ih (some (fn, ch)) ml cube
              (fun fn' sc' hh => by injection hh with hh'; injection hh' with a b; subst a; subst b; exact hmv)
            simp only [Option.map_some', Option.map_none'] at IH
            simp only [Option.map_some', Option.map_none']
            refine ⟨fun msg cube' h => ?_, fun cube' ml' h => ?_⟩
            · rw [haux] at h
              have := IH.1 msg cube' h
              rw [this, hex]
            · rw [haux] at h
              obtain ⟨hc, hm⟩ := IH.2 cube' ml' h
              exact ⟨by rw [hc, hex], by rw [hm, hex]⟩
        | some p =>
          obtain ⟨fn, sc⟩ := p
          have hsc := hst fn sc rfl
          cases hmv : CubeSimulator3x3.moves ch with
          | none =>
            have haux : performMovesAux (ch :: rest) (some (fn, sc)) ml cube
                = .error ("Invalid character", fn false cube) := by
              simp only [performMovesAux, if_neg h2, if_neg hp, hmv]
            have hex : execTokens (ch :: rest) (some sc) = [(sc, none)] := by
              simp only [execTokens, if_neg h2, if_neg hp, hmv]
            simp only [Option.map_some', Option.map_none']
            refine ⟨fun msg cube' h => ?_, fun cube' ml' h => ?_⟩
            · rw [haux] at h
              injection h with h'
              injection h' with hmsg hcube
              subst hcube
              rw [hex, applyTokens_cons, applyTokens_nil, applyToken_plain hsc]
            · rw [haux] at h
              exact Except.noConfusion h
          | some fn' =>
            have haux : performMovesAux (ch :: rest) (some (fn, sc)) ml cube
                = performMovesAux rest (some (fn', ch)) (ml ++ [(sc, none)]) (fn false cube) := by
              simp only [performMovesAux, if_neg h2, if_neg hp, hmv]
            have hex : execTokens (ch :: rest) (some sc)
                = (sc, none) :: execTokens rest (some ch) := by
              simp only [execTokens, if_neg h2, if_neg hp, hmv]
              rfl
            have IH := ih (some (fn', ch)) (ml ++ [(sc, none)]) (fn false cube)
              (fun fn'' sc' hh => by injection hh with hh'; injection hh' with a b; subst a; subst b; exact hmv)
            simp only [Option.map_some', Option.map_none'] at IH
            simp only [Option.map_some', Option.map_none']
            refine ⟨fun msg cube' h => ?_, fun cube' ml' h => ?_⟩
            · rw [haux] at h
              have := IH.1 msg cube' h
              rw [this, hex, applyTokens_cons, applyToken_plain hsc]
            · rw [haux] at h
              obtain ⟨hc, hm⟩ := IH.2 cube' ml' h
              refine ⟨?_, ?_⟩
              · rw [hc, hex, applyTokens_cons, applyToken_plain hsc]
              · rw [hm, hex]
                simp

/-- Every token listed by `execTokens` is well-formed. -/
lemma execTokens_WF (chars : List Char) :
    ∀ (stored : Option Char),
    (∀ sc, stored = some sc → (CubeSimulator3x3.moves sc).isSome) →
    ∀ t ∈ execTokens chars stored, WFToken t := by
  induction chars with
  | nil =>
    intro stored hst t ht
    cases stored with
    | none => exact absurd ht (by simp [execTokens])
    | some sc =>
      have : execTokens [] (some sc) = [(sc, none)] := rfl
      rw [this] at ht
      rcases List.mem_singleton.mp ht with rfl
      exact ⟨hst sc rfl, Or.inl rfl⟩
  | cons ch rest ih =>
    intro stored hst t ht
    by_cases h2 : ch = '2'
    · subst h2
      cases stored with
      | none => exact absurd ht (by simp [execTokens])
      | some sc =>
        have hex : execTokens ('2' :: rest) (some sc)
            = (sc, some '2') :: execTokens rest none := rfl
        rw [hex] at ht
        rcases List.mem_cons.mp ht with rfl | ht'
        · exact ⟨hst sc rfl, Or.inr (Or.inr rfl)⟩
        · exact ih none (fun sc' hh => Option.noConfusion hh) t ht'
    · by_cases hp : ch = primeChar
      · subst hp
        have hne2 : primeChar ≠ '2' := by decide
        cases stored with
        | none =>
          exact absurd ht (by simp [execTokens, if_neg hne2])
        | some sc =>
          have hex : execTokens (primeChar :: rest) (some sc)
              = (sc, some primeChar) :: execTokens rest none := rfl
          rw [hex] at ht
          rcases List.mem_cons.mp ht with rfl | ht'
          · exact ⟨hst sc rfl, Or.inr (Or.inl rfl)⟩
          · exact ih none (fun sc' hh => Option.noConfusion hh) t ht'
      · cases hmv : CubeSimulator3x3.moves ch with
        | none =>
          cases stored with
          | none =>
            have hex : execTokens (ch :: rest) none = [] := by
              simp only [execTokens, if_neg h2, if_neg hp, hmv]
            rw [hex] at ht
            exact absurd ht (List.not_mem_nil t)
          | some sc =>
            have hex : execTokens (ch :: rest) (some sc) = [(sc, none)] := by
              simp only [execTokens, if_neg h2, if_neg hp, hmv]
            rw [hex] at ht
            rcases List.mem_singleton.mp ht with rfl
            exact ⟨hst sc rfl, Or.inl rfl⟩
        | some fn =>
          have hch : (CubeSimulator3x3.moves ch).isSome := by rw [hmv]; rfl
          cases stored with
          | none =>
            have hex : execTokens (ch :: rest) none = execTokens rest (some ch) := by
              simp only [execTokens, if_neg h2, if_neg hp, hmv]
              rfl
            rw [hex] at ht
            exact ih (some ch) (fun sc' hh => by injection hh with hh'; subst hh'; exact hch) t ht
          | some sc =>
            have hex : execTokens (ch :: rest) (some sc)
                = (sc, none) :: execTokens rest (some ch) := by
              simp only [execTokens, if_neg h2, if_neg hp, hmv]
              rfl
            rw [hex] at ht
            rcases List.mem_cons.mp ht with rfl | ht'
            · exact ⟨hst sc rfl, Or.inl rfl⟩
            · exact ih (some ch) (fun sc' hh => by injection hh with hh'; subst hh'; exact hch) t ht'

end CubeSimulator

open CubeSimulator CubeSimulator3x3

/-- C5: whenever `perform_moves` fails on a moves string, the error
propagates to the caller, the cube is left in exactly the state produced
by the tokens successfully executed before the failure point, and no
entry is appended to the move history for that call. -/
theorem c5_failure_leaves_partial_state (record : Bool) (s : List Char) (st : SimState)
    (msg : String) (st' : SimState)
    (h : perform_moves record s st = .error (msg, st')) :
    st'.history = st.history ∧
    st'.cube = applyTokens (execTokens (remove_whitespace s) none) st.cube := by
  unfold perform_moves at h
  cases haux : performMovesAux (remove_whitespace s) none [] st.cube with
  | error e =>
    obtain ⟨m, cube'⟩ := e
    rw [haux] at h
    injection h with h'
    injection h' with hmsg hst'
    subst hst'
    refine ⟨rfl, ?_⟩
    exact (performMovesAux_spec (remove_whitespace s) none [] st.cube
      (fun fn sc hh => Option.noConfusion hh)).1 m cube' haux
  | ok p =>
    rw [haux] at h
    exact Except.noConfusion h

/-- Witness for C5: `perform_moves "UQ"` on a fresh simulator fails on the
unknown character Q, with the already-executed U applied and no history. -/
theorem c5_failure_leaves_partial_state_witness :
    (SimState.mk (move_U false (solvedCube 3)) []).history = initState.history ∧
    (SimState.mk (move_U false (solvedCube 3)) []).cube
      = applyTokens (execTokens (remove_whitespace "UQ".toList) none) initState.cube :=
  c5_failure_leaves_partial_state true "UQ".toList initState "Invalid character"
    (SimState.mk (move_U false (solvedCube 3)) []) rfl

end RubiksCube

-- ===== Theorems: undo / inverse sequences =====

namespace RubiksCube

namespace CubeSimulator

open CubeSimulator3x3

lemma moves_space : CubeSimulator3x3.moves ' ' = none := rfl

lemma moves_tab : CubeSimulator3x3.moves '\t' = none := rfl

lemma tokenChars_not_ws (t : Token) (h : WFToken t) :
    ∀ ch ∈ tokenChars t, ch ≠ ' ' ∧ ch ≠ '\t' := by
  obtain ⟨c, m⟩ := t
  obtain ⟨h1, h2⟩ := h
  have hc : c ≠ ' ' ∧ c ≠ '\t' := by
    constructor <;> rintro rfl
    · rw [moves_space] at h1; exact Bool.noConfusion h1
    · rw [moves_tab] at h1; exact Bool.noConfusion h1
  rcases h2 with h2 | h2 | h2 <;> simp only at h2 <;> subst h2 <;>
    intro ch hch
  · rcases List.mem_singleton.mp hch with rfl
    exact hc
  · rcases List.mem_cons.mp hch with rfl | hch'
    · exact hc
    · rcases List.mem_singleton.mp hch' with rfl
      exact ⟨by decide, by decide⟩
  · rcases List.mem_cons.mp hch with rfl | hch'
    · exact hc
    · rcases List.mem_singleton.mp hch' with rfl
      exact ⟨by decide, by decide⟩

lemma remove_whitespace_eq_self (s : List Char) (h : ∀ ch ∈ s, ch ≠ ' ' ∧ ch ≠ '\t') :
    remove_whitespace s = s := by
  unfold remove_whitespace
  apply List.filter_eq_self.mpr
  intro ch hch
  obtain ⟨h1, h2⟩ := h ch hch
  simp [h1, h2]

lemma remove_whitespace_flat (ts : List Token) (h : ∀ t ∈ ts, WFToken t) :
    remove_whitespace (ts.flatMap tokenChars) = ts.flatMap tokenChars := by
  apply remove_whitespace_eq_self
  intro ch hch
  obtain ⟨t, ht, hcht⟩ := List.mem_flatMap.mp hch
  exact tokenChars_not_ws t (h t ht) ch hcht

/-- Scanning the characters of a well-formed token list recovers exactly
those tokens (after flushing any pending move character). -/
lemma execTokens_flat (ts : List Token) :
    ∀ (stored : Option Char),
    (∀ t ∈ ts, WFToken t) →
    (∀ sc, stored = some sc → (CubeSimulator3x3.moves sc).isSome) →
    execTokens (ts.flatMap tokenChars) stored
      = (stored.map (fun sc => ((sc, none) : Token))).toList ++ ts := by
  induction ts with
  | nil =>
    intro stored hts hst
    cases stored with
    | none => rfl
    | some sc => rfl
  | cons t ts ih =>
    obtain ⟨c, m⟩ := t
    intro stored hts hst
    have hwf : WFToken (c, m) := hts (c, m) (List.mem_cons_self _ _)
    obtain ⟨h1, h2⟩ := hwf
    obtain ⟨fn₀, hmv⟩ := Option.isSome_iff_exists.mp h1
    obtain ⟨hne2, hnep⟩ := isSome_moves_ne h1
    have hts' : ∀ u ∈ ts, WFToken u := fun u hu => hts u (List.mem_cons_of_mem _ hu)
    have hstc : ∀ sc, (some c : Option Char) = some sc → (CubeSimulator3x3.moves sc).isSome :=
      fun sc hh => by injection hh with hh'; subst hh'; exact h1
    rcases h2 with h2 | h2 | h2 <;> simp only at h2 <;> subst h2
    · -- plain token: contributes [c]
      have hflat : ((c, (none : Option Char)) :: ts).flatMap tokenChars
          = c :: ts.flatMap tokenChars := rfl
      rw [hflat]
      cases stored with
      | none =>
        have hex : execTokens (c :: ts.flatMap tokenChars) none
            = execTokens (ts.flatMap tokenChars) (some c) := by
          simp only [execTokens, if_neg hne2, if_neg hnep, hmv]
          rfl
        rw [hex, ih (some c) hts' hstc]
        rfl
      | some sc =>
        have hex : execTokens (c :: ts.flatMap tokenChars) (some sc)
            = (sc, none) :: execTokens (ts.flatMap tokenChars) (some c) := by
          simp only [execTokens, if_neg hne2, if_neg hnep, hmv]
          rfl
        rw [hex, ih (some c) hts' hstc]
        rfl
    · -- prime token: contributes [c, primeChar]
      have hflat : ((c, some primeChar) :: ts).flatMap tokenChars
          = c :: primeChar :: ts.flatMap tokenChars := rfl
      rw [hflat]
      cases stored with
      | none =>
        have hex : execTokens (c :: primeChar :: ts.flatMap tokenChars) none
            = execTokens (primeChar :: ts.flatMap tokenChars) (some c) := by
          simp only [execTokens, if_neg hne2, if_neg hnep, hmv]
          rfl
        have hex2 : execTokens (primeChar :: ts.flatMap tokenChars) (some c)
            = (c, some primeChar) :: execTokens (ts.flatMap tokenChars) none := rfl
        rw [hex, hex2, ih none hts' (fun sc hh => Option.noConfusion hh)]
        rfl
      | some sc =>
        have hex : execTokens (c :: primeChar :: ts.flatMap tokenChars) (some sc)
            = (sc, none) :: execTokens (primeChar :: ts.flatMap tokenChars) (some c) := by
          simp only [execTokens, if_neg hne2, if_neg hnep, hmv]
          rfl
        have hex2 : execTokens (primeChar :: ts.flatMap tokenChars) (some c)
            = (c, some primeChar) :: execTokens (ts.flatMap tokenChars) none := rfl
        rw [hex, hex2, ih none hts' (fun sc hh => Option.noConfusion hh)]
        rfl
    · -- double token: contributes [c, '2']
      have hflat : ((c, some '2') :: ts).flatMap tokenChars
          = c :: '2' :: ts.flatMap tokenChars := rfl
      rw [hflat]
      cases stored with
      | none =>
        have hex : execTokens (c :: '2' :: ts.flatMap tokenChars) none
            = execTokens ('2' :: ts.flatMap tokenChars) (some c) := by
          simp only [execTokens, if_neg hne2, if_neg hnep, hmv]
          rfl
        have hex2 : execTokens ('2' :: ts.flatMap tokenChars) (some c)
            = (c, some '2') :: execTokens (ts.flatMap tokenChars) none := rfl
        rw [hex, hex2, ih none hts' (fun sc hh => Option.noConfusion hh)]
        rfl
      | some sc =>
        have hex : execTokens (c :: '2' :: ts.flatMap tokenChars) (some sc)
            = (sc, none) :: execTokens ('2' :: ts.flatMap tokenChars) (some c) := by
          simp only [execTokens, if_neg hne2, if_neg hnep, hmv]
          rfl
        have hex2 : execTokens ('2' :: ts.flatMap tokenChars) (some c)
            = (c, some '2') :: execTokens (ts.flatMap tokenChars) none := rfl
        rw [hex, hex2, ih none hts' (fun sc hh => Option.noConfusion hh)]
        rfl

/-- Scanning the characters of a well-formed token list never raises. -/
lemma performMovesAux_flat_ok (ts : List Token) :
    ∀ (stored : Option ((Bool → Cube3 → Cube3) × Char)) (ml : List Token) (cube : Cube3),
    (∀ t ∈ ts, WFToken t) →
    (∀ fn sc, stored = some (fn, sc) → CubeSimulator3x3.moves sc = some fn) →
    ∃ out, performMovesAux (ts.flatMap tokenChars) stored ml cube = .ok out := by
  induction ts with
  | nil =>
    intro stored ml cube hts hst
    cases stored with
    | none => exact ⟨(cube, ml), rfl⟩
    | some p => exact ⟨(p.1 false cube, ml ++ [(p.2, none)]), rfl⟩
  | cons t ts ih =>
    obtain ⟨c, m⟩ := t
    intro stored ml cube hts hst
    have hwf : WFToken (c, m) := hts (c, m) (List.mem_cons_self _ _)
    obtain ⟨h1, h2⟩ := hwf
    obtain ⟨fn₀, hmv⟩ := Option.isSome_iff_exists.mp h1
    obtain ⟨hne2, hnep⟩ := isSome_moves_ne h1
    have hts' : ∀ u ∈ ts, WFToken u := fun u hu => hts u (List.mem_cons_of_mem _ hu)
    have hstc : ∀ fn sc, (some (fn₀, c) : Option ((Bool → Cube3 → Cube3) × Char)) = some (fn, sc) →
        CubeSimulator3x3.moves sc = some fn := by
      intro fn sc hh
      injection hh with hh'
      injection hh' with a b
      subst a; subst b
      exact hmv
    rcases h2 with h2 | h2 | h2 <;> simp only at h2 <;> subst h2
    · -- plain token
      cases stored with
      | none =>
        have haux : performMovesAux (((c, (none : Option Char)) :: ts).flatMap tokenChars) none ml cube
            = performMovesAux (ts.flatMap tokenChars) (some (fn₀, c)) ml cube := by
          simp only [List.flatMap_cons, tokenChars, List.cons_append, List.nil_append,
            performMovesAux, if_neg hne2, if_neg hnep, hmv]
          rfl
        rw [haux]
        exact ih (some (fn₀, c)) ml cube hts' hstc
      | some p =>
        obtain ⟨fn, sc⟩ := p
        have haux : performMovesAux (((c, (none : Option Char)) :: ts).flatMap tokenChars)
              (some (fn, sc)) ml cube
            = performMovesAux (ts.flatMap tokenChars) (some (fn₀, c))
                (ml ++ [(sc, none)]) (fn false cube) := by
          simp only [List.flatMap_cons, tokenChars, List.cons_append, List.nil_append,
            performMovesAux, if_neg hne2, if_neg hnep, hmv]
          rfl
        rw [haux]
        exact ih (some (fn₀, c)) (ml ++ [(sc, none)]) (fn false cube) hts' hstc
    · -- prime token
      cases stored with
      | none =>
        have haux : performMovesAux (((c, some primeChar) :: ts).flatMap tokenChars) none ml cube
            = performMovesAux (ts.flatMap tokenChars) none
                (ml ++ [(c, some primeChar)]) (fn₀ true cube) := by
          simp only [List.flatMap_cons, tokenChars, List.cons_append, List.nil_append,
            performMovesAux, if_neg hne2, if_neg hnep, hmv]
          rfl
        rw [haux]
        exact ih none (ml ++ [(c, some primeChar)]) (fn₀ true cube) hts'
          (fun fn sc hh => Option.noConfusion hh)
      | some p =>
        obtain ⟨fn, sc⟩ := p
        have haux : performMovesAux (((c, some primeChar) :: ts).flatMap tokenChars)
              (some (fn, sc)) ml cube
            = performMovesAux (ts.flatMap tokenChars) none
                (ml ++ [(sc, none)] ++ [(c, some primeChar)]) (fn₀ true (fn false cube)) := by
          simp only [List.flatMap_cons, tokenChars, List.cons_append, List.nil_append,
            performMovesAux, if_neg hne2, if_neg hnep, hmv]
          rfl
        rw [haux]
        exact ih none (ml ++ [(sc, none)] ++ [(c, some primeChar)]) (fn₀ true (fn false cube)) hts'
          (fun fn sc hh => Option.noConfusion hh)
    · -- double token
      cases stored with
      | none =>
        have haux : performMovesAux (((c, some '2') :: ts).flatMap tokenChars) none ml cube
            = performMovesAux (ts.flatMap tokenChars) none
                (ml ++ [(c, some '2')]) (move_twice fn₀ cube) := by
          simp only [List.flatMap_cons, tokenChars, List.cons_append, List.nil_append,
            performMovesAux, if_neg hne2, if_neg hnep, hmv]
          rfl
        rw [haux]
        exact ih none (ml ++ [(c, some '2')]) (move_twice fn₀ cube) hts'
          (fun fn sc hh => Option.noConfusion hh)
      | some p =>
        obtain ⟨fn, sc⟩ := p
        have haux : performMovesAux (((c, some '2') :: ts).flatMap tokenChars)
              (some (fn, sc)) ml cube
            = performMovesAux (ts.flatMap tokenChars) none
                (ml ++ [(sc, none)] ++ [(c, some '2')]) (move_twice fn₀ (fn false cube)) := by
          simp only [List.flatMap_cons, tokenChars, List.cons_append, List.nil_append,
            performMovesAux, if_neg hne2, if_neg hnep, hmv]
          rfl
        rw [haux]
        exact ih none (ml ++ [(sc, none)] ++ [(c, some '2')]) (move_twice fn₀ (fn false cube)) hts'
          (fun fn sc hh => Option.noConfusion hh)

/-- `perform_moves` on the character flattening of a well-formed token list
succeeds, applies exactly those tokens, and records them exactly when
recording is on and the list is non-empty. -/
lemma perform_moves_flat (record : Bool) (ts : List Token) (st : SimState)
    (h : ∀ t ∈ ts, WFToken t) :
    perform_moves record (ts.flatMap tokenChars) st
      = .ok { cube := applyTokens ts st.cube,
              history := if record ∧ 0 < ts.length then st.history ++ [ts] else st.history } := by
  unfold perform_moves
  rw [remove_whitespace_flat ts h]
  obtain ⟨out, hout⟩ := performMovesAux_flat_ok ts none [] st.cube h
    (fun fn sc hh => Option.noConfusion hh)
  obtain ⟨cube', ml'⟩ := out
  rw [hout]
  obtain ⟨hc, hm⟩ := (performMovesAux_spec (ts.flatMap tokenChars) none [] st.cube
    (fun fn sc hh => Option.noConfusion hh)).2 cube' ml' hout
  simp only [Option.map_none'] at hc hm
  rw [execTokens_flat ts none h (fun sc hh => Option.noConfusion hh)] at hc hm
  simp only [Option.map_none', Option.toList_none, List.nil_append] at hc hm
  subst hc
  subst hm
  rfl

lemma WFToken_flip {t : Token} (h : WFToken t) : WFToken (flipToken t) := by
  obtain ⟨c, m⟩ := t
  obtain ⟨h1, h2⟩ := h
  rcases h2 with h2 | h2 | h2 <;> simp only at h2 <;> subst h2
  · exact ⟨h1, Or.inr (Or.inl rfl)⟩
  · exact ⟨h1, Or.inl rfl⟩
  · exact ⟨h1, Or.inr (Or.inr rfl)⟩

lemma inverse_token_chars_eq (t : Token) (h : WFToken t) :
    inverse_token_chars t = tokenChars (flipToken t) := by
  obtain ⟨c, m⟩ := t
  obtain ⟨h1, h2⟩ := h
  rcases h2 with h2 | h2 | h2 <;> simp only at h2 <;> subst h2 <;> rfl

lemma flatMap_inverse_token_chars (l : List Token) (h : ∀ t ∈ l, WFToken t) :
    l.flatMap inverse_token_chars = (l.map flipToken).flatMap tokenChars := by
  induction l with
  | nil => rfl
  | cons t l ih =>
    rw [List.flatMap_cons, List.map_cons, List.flatMap_cons,
      inverse_token_chars_eq t (h t (List.mem_cons_self _ _)),
      ih (fun u hu => h u (List.mem_cons_of_mem _ hu))]

lemma get_inverse_sequence_eq (ts : List Token) (h : ∀ t ∈ ts, WFToken t) :
    get_inverse_sequence ts = (ts.reverse.map flipToken).flatMap tokenChars := by
  unfold get_inverse_sequence
  exact flatMap_inverse_token_chars ts.reverse
    (fun t ht => h t (List.mem_reverse.mp ht))

lemma applyToken_flipToken (t : Token) (h : WFToken t) (cube : Cube3) :
    applyToken (flipToken t) (applyToken t cube) = cube := by
  obtain ⟨c, m⟩ := t
  obtain ⟨h1, h2⟩ := h
  obtain ⟨fn, hmv⟩ := Option.isSome_iff_exists.mp h1
  have hinv := CubeSimulator3x3.moves_inv c fn hmv
  rcases h2 with h2 | h2 | h2 <;> simp only at h2 <;> subst h2
  · rw [show flipToken (c, none) = (c, some primeChar) from rfl,
      applyToken_plain hmv, applyToken_prime hmv]
    exact (hinv cube).1
  · rw [show flipToken (c, some primeChar) = (c, none) from rfl,
      applyToken_prime hmv, applyToken_plain hmv]
    exact (hinv cube).2.1
  · rw [show flipToken (c, some '2') = (c, some '2') from rfl,
      applyToken_double hmv, applyToken_double hmv]
    exact (hinv cube).2.2

lemma applyTokens_inverse_rev (us : List Token) :
    ∀ cube : Cube3, (∀ t ∈ us, WFToken t) →
    applyTokens (us.map flipToken) (applyTokens us.reverse cube) = cube := by
  induction us with
  | nil => intro cube h; rfl
  | cons u us ih =>
    intro cube h
    rw [List.reverse_cons, applyTokens_append, List.map_cons, applyTokens_cons]
    have hu : WFToken u := h u (List.mem_cons_self _ _)
    rw [show applyTokens [u] (applyTokens us.reverse cube) =
        applyToken u (applyTokens us.reverse cube) from rfl,
      applyToken_flipToken u hu]
    exact ih cube (fun t ht => h t (List.mem_cons_of_mem _ ht))

/-- Replaying the reversed, modifier-flipped tokens undoes a token list. -/
lemma applyTokens_inverse (ts : List Token) (cube : Cube3) (h : ∀ t ∈ ts, WFToken t) :
    applyTokens (ts.reverse.map flipToken) (applyTokens ts cube) = cube := by
  have := applyTokens_inverse_rev ts.reverse cube
    (fun t ht => h t (List.mem_reverse.mp ht))
  rwa [List.reverse_reverse] at this

/-- What `undo_moves_sequence` does on any state whose most recent history
entry is well-formed: pop that entry, replay its reversed flipped tokens
without recording, return the inverse string. -/
lemma undo_spec (st : SimState) (prev : List Token)
    (hlast : st.history.getLast? = some prev) (hWF : ∀ t ∈ prev, WFToken t) :
    undo_moves_sequence st = .ok
      ({ cube := applyTokens (prev.reverse.map flipToken) st.cube,
         history := st.history.dropLast }, get_inverse_sequence prev) := by
  have hWFflip : ∀ t ∈ prev.reverse.map flipToken, WFToken t := by
    intro t ht
    obtain ⟨u, hu, rfl⟩ := List.mem_map.mp ht
    exact WFToken_flip (hWF u (List.mem_reverse.mp hu))
  have hperf := perform_moves_flat false (prev.reverse.map flipToken)
    { st with history := st.history.dropLast } hWFflip
  simp only [Bool.false_eq_true, false_and, ite_false] at hperf
  simp only [undo_moves_sequence, hlast]
  rw [get_inverse_sequence_eq prev hWF, hperf]

end CubeSimulator

open CubeSimulator CubeSimulator3x3

/-- C4: undo pops exactly the most recent history entry and performs that
entry's inverse sequence (tokens reversed with plain↔prime flipped,
double unchanged) without appending to the history; consequently, undo
after any recorded sequence restores the cube and history to exactly
their state before that sequence was performed. -/
theorem c4_undo_pops_and_restores :
    (∀ (st : SimState) (prev : List Token),
       st.history.getLast? = some prev → (∀ t ∈ prev, WFToken t) →
       undo_moves_sequence st = .ok
         ({ cube := applyTokens (prev.reverse.map flipToken) st.cube,
            history := st.history.dropLast }, get_inverse_sequence prev)) ∧
    (∀ (st0 st1 : SimState) (s : List Char),
       perform_moves true s st0 = .ok st1 → st1.history ≠ st0.history →
       ∃ prev : List Token,
         st1.history = st0.history ++ [prev] ∧
         undo_moves_sequence st1
           = .ok ({ cube := st0.cube, history := st0.history }, get_inverse_sequence prev)) := by
  constructor
  · exact undo_spec
  · intro st0 st1 s hperf hne
    unfold perform_moves at hperf
    cases haux : performMovesAux (remove_whitespace s) none [] st0.cube with
    | error e =>
      obtain ⟨m, c⟩ := e
      rw [haux] at hperf
      exact Except.noConfusion hperf
    | ok p =>
      obtain ⟨cube', ml'⟩ := p
      rw [haux] at hperf
      injection hperf with h1
      obtain ⟨hc, hm⟩ := (performMovesAux_spec (remove_whitespace s) none [] st0.cube
        (fun fn sc hh => Option.noConfusion hh)).2 cube' ml' haux
      simp only [Option.map_none', List.nil_append] at hc hm
      subst hm
      have hWFml : ∀ t ∈ execTokens (remove_whitespace s) none, WFToken t :=
        execTokens_WF (remove_whitespace s) none (fun sc hh => Option.noConfusion hh)
      by_cases hlen : 0 < (execTokens (remove_whitespace s) none).length
      · refine ⟨execTokens (remove_whitespace s) none, ?_, ?_⟩
        · rw [← h1]
          simp [hlen]
        · have hhist : st1.history = st0.history ++ [execTokens (remove_whitespace s) none] := by
            rw [← h1]
            simp [hlen]
          have hcube : st1.cube = applyTokens (execTokens (remove_whitespace s) none) st0.cube := by
            rw [← h1, hc]
          have hlast : st1.history.getLast? = some (execTokens (remove_whitespace s) none) := by
            rw [hhist]
            exact List.getLast?_concat _
          have := undo_spec st1 (execTokens (remove_whitespace s) none) hlast hWFml
          rw [this, hcube, applyTokens_inverse _ _ hWFml, hhist, List.dropLast_concat]
      · exfalso
        apply hne
        rw [← h1]
        simp only [true_and]
        rw [if_neg hlen]
    
/-- Witness for C4: perform "U" on a fresh simulator, then undo; the solved
cube and empty history are restored. -/
theorem c4_undo_pops_and_restores_witness :
    ∃ prev : List Token,
      (SimState.mk (move_U false (solvedCube 3)) [[(('U', none) : Token)]]).history
        = initState.history ++ [prev] ∧
      undo_moves_sequence (SimState.mk (move_U false (solvedCube 3)) [[(('U', none) : Token)]])
        = .ok ({ cube := initState.cube, history := initState.history },
               get_inverse_sequence prev) :=
  c4_undo_pops_and_restores.2 initState
    (SimState.mk (move_U false (solvedCube 3)) [[(('U', none) : Token)]])
    "U".toList rfl (by simp [initState])

end RubiksCube

-- ===== Theorems: rotate_y band cycle (C2) =====

namespace RubiksCube

/-- C2 counterexample: the claim says that for direction LEFT the Left
face's row moves to the Front face; on a solved 3x3 cube the Left face is
GREEN, yet after `rotate_y(1, LEFT)` the Front face's row holds BLUE (the
Right face's row) — the cycle runs the other way. -/
theorem c2_left_cycle_counterexample :
    Cube.rotate_y (n := 3) 1 RowMove.LEFT (solvedCube 3)
      = .ok (Cube.rotate_y0 0 RowMove.LEFT (solvedCube 3)) ∧
    Cube.rotate_y0 (n := 3) 0 RowMove.LEFT (solvedCube 3) 1 0 0 = Colour.BLUE ∧
    solvedCube 3 0 0 0 = Colour.GREEN ∧ Colour.BLUE ≠ Colour.GREEN :=
  ⟨rfl, rfl, rfl, fun h => Colour.noConfusion h⟩

/-- C2 amended: for every cube and valid 1-indexed row, `rotate_y` with
LEFT moves the Front face's row to the Left face, Right's to Front,
Back's to Right and Left's to Back, element by element with no reversal;
RIGHT performs the reverse cycle. -/
theorem c2_rotate_y_band_cycle {n : Nat} (row : Nat) (st stL stR : CubeF n)
    (hr : row - 1 < n)
    (hL : Cube.rotate_y row RowMove.LEFT st = .ok stL)
    (hR : Cube.rotate_y row RowMove.RIGHT st = .ok stR) (col : Fin n) :
    (stL 0 ⟨row - 1, hr⟩ col = st 1 ⟨row - 1, hr⟩ col ∧
     stL 1 ⟨row - 1, hr⟩ col = st 2 ⟨row - 1, hr⟩ col ∧
     stL 2 ⟨row - 1, hr⟩ col = st 3 ⟨row - 1, hr⟩ col ∧
     stL 3 ⟨row - 1, hr⟩ col = st 0 ⟨row - 1, hr⟩ col) ∧
    (stR 0 ⟨row - 1, hr⟩ col = st 3 ⟨row - 1, hr⟩ col ∧
     stR 1 ⟨row - 1, hr⟩ col = st 0 ⟨row - 1, hr⟩ col ∧
     stR 2 ⟨row - 1, hr⟩ col = st 1 ⟨row - 1, hr⟩ col ∧
     stR 3 ⟨row - 1, hr⟩ col = st 2 ⟨row - 1, hr⟩ col) := by
  unfold Cube.rotate_y at hL hR
  split at hL
  case isFalse => exact Except.noConfusion hL
  case isTrue h =>
    split at hR
    case isFalse h' => exact absurd h h'
    case isTrue h' =>
      injection hL with hL'
      injection hR with hR'
      subst hL'
      subst hR'
      refine ⟨⟨?_, ?_, ?_, ?_⟩, ?_, ?_, ?_, ?_⟩ <;>
        (unfold Cube.rotate_y0;
         split <;> (try split) <;>
          simp_all [Cube.set_row, Cube.get_row, Cube.rotate_face])

/-- Witness for C2 amended at size 3, row 2 (the middle row), the solved
cube and column 0: the Front face's new row holds the Right face's colour. -/
theorem c2_rotate_y_band_cycle_witness :
    Cube.rotate_y0 (n := 3) 1 RowMove.LEFT (solvedCube 3) 1 1 0 = solvedCube 3 2 1 0 :=
  ((c2_rotate_y_band_cycle (n := 3) 2 (solvedCube 3)
    (Cube.rotate_y0 1 RowMove.LEFT (solvedCube 3))
    (Cube.rotate_y0 1 RowMove.RIGHT (solvedCube 3))
    (by omega) rfl rfl 0).1).2.1

end RubiksCube

-- ===== Theorems: string representation round-trip (C7) =====

namespace RubiksCube

namespace CubeList

lemma colour_code_roundtrip (c : Colour) :
    get_colour_from_string (get_string_from_colour c) = .ok c := by
  cases c <;> rfl

lemma readSquares_spec (rest : List Char) : ∀ (cols : List Colour) (p : List Char),
    readSquares (p ++ cols.map get_string_from_colour ++ rest)
      cols.length p.length = .ok (cols, p.length + cols.length) := by
  intro cols
  induction cols with
  | nil =>
    intro p
    simp [readSquares]
  | cons c cs ih =>
    intro p
    have hget : (p ++ (c :: cs).map get_string_from_colour ++ rest).get? p.length
        = some (get_string_from_colour c) := by
      rw [List.append_assoc, List.get?_eq_getElem?,
        List.getElem?_append_right (Nat.le_refl p.length)]
      simp
    show readSquares (p ++ (c :: cs).map get_string_from_colour ++ rest)
        (cs.length + 1) p.length = _
    simp only [readSquares, hget, colour_code_roundtrip]
    have hs : p ++ (c :: cs).map get_string_from_colour ++ rest
        = (p ++ [get_string_from_colour c]) ++ cs.map get_string_from_colour ++ rest := by
      simp [List.append_assoc]
    rw [hs, show p.length + 1 = (p ++ [get_string_from_colour c]).length by simp]
    rw [ih (p ++ [get_string_from_colour c])]
    dsimp only
    have harith : (p ++ [get_string_from_colour c]).length + cs.length
        = p.length + (c :: cs).length := by
      simp
      omega
    rw [harith]

lemma readRows_spec {n : Nat} (rest : List Char) :
    ∀ (face : List (List Colour)) (p : List Char),
    (∀ row ∈ face, row.length = n) →
    readRows (p ++ face.flatten.map get_string_from_colour ++ rest)
      n face.length p.length = .ok (face, p.length + n * face.length) := by
  intro face
  induction face with
  | nil =>
    intro p _
    simp [readRows]
  | cons row rows ih =>
    intro p hrow
    have h1 : row.length = n := hrow row (List.mem_cons_self _ _)
    have hs : p ++ (row :: rows).flatten.map get_string_from_colour ++ rest
        = p ++ row.map get_string_from_colour
            ++ (rows.flatten.map get_string_from_colour ++ rest) := by
      simp [List.append_assoc]
    show readRows _ n (rows.length + 1) p.length = _
    simp only [readRows]
    rw [hs]
    have hsq := readSquares_spec (rows.flatten.map get_string_from_colour ++ rest) row p
    rw [h1] at hsq
    rw [hsq]
    dsimp only
    have hs2 : p ++ row.map get_string_from_colour
          ++ (rows.flatten.map get_string_from_colour ++ rest)
        = (p ++ row.map get_string_from_colour)
            ++ rows.flatten.map get_string_from_colour ++ rest := by
      simp [List.append_assoc]
    have hidx : p.length + n = (p ++ row.map get_string_from_colour).length := by
      simp [h1]
    rw [hidx, hs2, ih (p ++ row.map get_string_from_colour)
      (fun r hr => hrow r (List.mem_cons_of_mem _ hr))]
    dsimp only
    have harith : (p ++ row.map get_string_from_colour).length + n * rows.length
        = p.length + n * (row :: rows).length := by
      simp [h1, Nat.mul_succ]
      omega
    rw [harith]

lemma readFaces_spec {n : Nat} (rest : List Char) :
    ∀ (cube : List (List (List Colour))) (p : List Char),
    (∀ face ∈ cube, face.length = n ∧ ∀ row ∈ face, row.length = n) →
    readFaces (p ++ cube.flatten.flatten.map get_string_from_colour ++ rest)
      n cube.length p.length = .ok (cube, p.length + n * n * cube.length) := by
  intro cube
  induction cube with
  | nil =>
    intro p _
    simp [readFaces]
  | cons face faces ih =>
    intro p hcube
    obtain ⟨hlen, hface⟩ := hcube face (List.mem_cons_self _ _)
    have hs : p ++ (face :: faces).flatten.flatten.map get_string_from_colour ++ rest
        = p ++ face.flatten.map get_string_from_colour
            ++ (faces.flatten.flatten.map get_string_from_colour ++ rest) := by
      simp [List.append_assoc]
    show readFaces _ n (faces.length + 1) p.length = _
    simp only [readFaces]
    rw [hs]
    have hrows := readRows_spec (n := n)
      (faces.flatten.flatten.map get_string_from_colour ++ rest) face p hface
    rw [hlen] at hrows
    rw [hrows]
    dsimp only
    have hflat : face.flatten.length = n * n := by
      rw [List.length_flatten]
      have hmap : face.map List.length = List.replicate n n := by
        rw [List.eq_replicate_iff]
        constructor
        · simp [hlen]
        · intro b hb
          obtain ⟨r, hr, rfl⟩ := List.mem_map.mp hb
          exact hface r hr
      rw [hmap]
      simp [List.sum_replicate, smul_eq_mul]
    have hidx : p.length + n * n = (p ++ face.flatten.map get_string_from_colour).length := by
      rw [List.length_append, List.length_map, hflat]
    have hs2 : p ++ face.flatten.map get_string_from_colour
          ++ (faces.flatten.flatten.map get_string_from_colour ++ rest)
        = (p ++ face.flatten.map get_string_from_colour)
            ++ faces.flatten.flatten.map get_string_from_colour ++ rest := by
      simp [List.append_assoc]
    rw [hidx, hs2, ih (p ++ face.flatten.map get_string_from_colour)
      (fun f hf => hcube f (List.mem_cons_of_mem _ hf))]
    dsimp only
    have harith : (p ++ face.flatten.map get_string_from_colour).length
          + n * n * faces.length
        = p.length + n * n * (face :: faces).length := by
      rw [List.length_append, List.length_map, hflat, List.length_cons, Nat.mul_succ]
      omega
    rw [harith]

lemma shaped_create (n : Nat) : Shaped n (create_completed_cube n) := by
  constructor
  · rfl
  · intro face hface
    obtain ⟨colour, _, rfl⟩ := List.mem_map.mp hface
    constructor
    · simp
    · intro row hrow
      rw [List.eq_of_mem_replicate hrow]
      simp

end CubeList

open CubeList

/-- C7: for every size ≥ 1, serializing a freshly created solved cube and
constructing a new cube from that string yields the same cube; encode and
decode traverse squares in the same face-major, row-major, column-minor
order and the round-trip is exact. -/
theorem c7_string_roundtrip (n : Nat) (hn : 1 ≤ n) :
    create_cube_from_string_representation n
      (get_string_representation (create_completed_cube n))
      = .ok (create_completed_cube n) := by
  unfold create_cube_from_string_representation
  rw [if_neg (by omega)]
  obtain ⟨hlen, hfaces⟩ := shaped_create n
  have hspec := readFaces_spec (n := n) [] (create_completed_cube n) [] hfaces
  simp only [List.nil_append, List.append_nil, List.length_nil] at hspec
  rw [hlen] at hspec
  unfold get_string_representation
  rw [hspec]

/-- Witness for C7 at size 2. -/
theorem c7_string_roundtrip_witness :
    create_cube_from_string_representation 2
      (get_string_representation (create_completed_cube 2))
      = .ok (create_completed_cube 2) :=
  c7_string_roundtrip 2 (by omega)

end RubiksCube

-- ===== Theorems: decode success characterization (C8) =====

namespace RubiksCube

namespace CubeList

lemma readSquares_consumes (s : List Char) :
    ∀ (k i : Nat) (cols : List Colour) (i' : Nat),
    readSquares s k i = .ok (cols, i') →
    i' = i + k ∧ ∀ j < k, validAt s (i + j) := by
  intro k
  induction k with
  | zero =>
    intro i cols i' h
    injection h with h'
    injection h' with h1 h2
    subst h2
    exact ⟨by omega, fun j hj => absurd hj (by omega)⟩
  | succ k ih =>
    intro i cols i' h
    rw [show readSquares s (k + 1) i
        = (match s.get? i with
          | none => .error .indexError
          | some ch =>
            match get_colour_from_string ch with
            | .error e => .error e
            | .ok colour =>
              match readSquares s k (i + 1) with
              | .error e => .error e
              | .ok (rest, i') => .ok (colour :: rest, i')) from rfl] at h
    cases hget : s.get? i with
    | none => rw [hget] at h; exact Except.noConfusion h
    | some ch =>
      rw [hget] at h
      dsimp only at h
      cases hcol : get_colour_from_string ch with
      | error e => rw [hcol] at h; exact Except.noConfusion h
      | ok colour =>
        rw [hcol] at h
        dsimp only at h
        cases hrec : readSquares s k (i + 1) with
        | error e => rw [hrec] at h; exact Except.noConfusion h
        | ok out =>
          obtain ⟨rest, i2⟩ := out
          rw [hrec] at h
          dsimp only at h
          injection h with h'
          injection h' with h1 h2
          subst h2
          obtain ⟨hidx, hvalid⟩ := ih (i + 1) rest i2 hrec
          refine ⟨by omega, fun j hj => ?_⟩
          cases j with
          | zero => exact ⟨ch, by simpa using hget, colour, hcol⟩
          | succ j' =>
            have := hvalid j' (by omega)
            rwa [show i + 1 + j' = i + (j' + 1) by omega] at this

lemma readSquares_ok_of_valid (s : List Char) :
    ∀ (k i : Nat), (∀ j < k, validAt s (i + j)) →
    ∃ out, readSquares s k i = .ok out ∧ out.2 = i + k := by
  intro k
  induction k with
  | zero => intro i _; exact ⟨([], i), rfl, by omega⟩
  | succ k ih =>
    intro i h
    obtain ⟨ch, hget, colour, hcol⟩ := by simpa using h 0 (by omega)
    obtain ⟨out, hout, hidx⟩ := ih (i + 1) (fun j hj => by
      have := h (j + 1) (by omega)
      rwa [show i + (j + 1) = i + 1 + j by omega] at this)
    refine ⟨(colour :: out.1, out.2), ?_, by omega⟩
    rw [show readSquares s (k + 1) i
        = (match s.get? i with
          | none => .error .indexError
          | some ch =>
            match get_colour_from_string ch with
            | .error e => .error e
            | .ok colour =>
              match readSquares s k (i + 1) with
              | .error e => .error e
              | .ok (rest, i') => .ok (colour :: rest, i')) from rfl]
    rw [hget]
    dsimp only
    rw [hcol]
    dsimp only
    rw [hout]

lemma readRows_consumes (s : List Char) (n : Nat) :
    ∀ (k i : Nat) (face : List (List Colour)) (i' : Nat),
    readRows s n k i = .ok (face, i') →
    i' = i + n * k ∧ ∀ j < n * k, validAt s (i + j) := by
  intro k
  induction k with
  | zero =>
    intro i face i' h
    injection h with h'
    injection h' with h1 h2
    subst h2
    exact ⟨by omega, fun j hj => absurd hj (by simp at hj)⟩
  | succ k ih =>
    intro i face i' h
    rw [show readRows s n (k + 1) i
        = (match readSquares s n i with
          | .error e => .error e
          | .ok (row, i1) =>
            match readRows s n k i1 with
            | .error e => .error e
            | .ok (rest, i2) => .ok (row :: rest, i2)) from rfl] at h
    cases hsq : readSquares s n i with
    | error e => rw [hsq] at h; exact Except.noConfusion h
    | ok out1 =>
      obtain ⟨row, i1⟩ := out1
      rw [hsq] at h
      dsimp only at h
      cases hrec : readRows s n k i1 with
      | error e => rw [hrec] at h; exact Except.noConfusion h
      | ok out2 =>
        obtain ⟨rest, i2⟩ := out2
        rw [hrec] at h
        dsimp only at h
        injection h with h'
        injection h' with h1 h2
        subst h2
        obtain ⟨hidx1, hvalid1⟩ := readSquares_consumes s n i row i1 hsq
        obtain ⟨hidx2, hvalid2⟩ := ih i1 rest i2 hrec
        refine ⟨by subst hidx1; rw [hidx2, Nat.mul_succ]; omega, fun j hj => ?_⟩
        by_cases hjn : j < n
        · exact hvalid1 j hjn
        · have := hvalid2 (j - n) (by rw [Nat.mul_succ] at hj; omega)
          rwa [hidx1, show i + n + (j - n) = i + j by omega] at this

lemma readRows_ok_of_valid (s : List Char) (n : Nat) :
    ∀ (k i : Nat), (∀ j < n * k, validAt s (i + j)) →
    ∃ out, readRows s n k i = .ok out ∧ out.2 = i + n * k := by
  intro k
  induction k with
  | zero => intro i _; exact ⟨([], i), rfl, by omega⟩
  | succ k ih =>
    intro i h
    obtain ⟨out1, hout1, hidx1⟩ := readSquares_ok_of_valid s n i (fun j hj =>
      h j (by rw [Nat.mul_succ]; omega))
    obtain ⟨out2, hout2, hidx2⟩ := ih out1.2 (fun j hj => by
      have := h (n + j) (by rw [Nat.mul_succ]; omega)
      rw [hidx1]
      rwa [show i + (n + j) = i + n + j by omega] at this)
    refine ⟨(out1.1 :: out2.1, out2.2), ?_, by rw [hidx2, hidx1, Nat.mul_succ]; omega⟩
    rw [show readRows s n (k + 1) i
        = (match readSquares s n i with
          | .error e => .error e
          | .ok (row, i1) =>
            match readRows s n k i1 with
            | .error e => .error e
            | .ok (rest, i2) => .ok (row :: rest, i2)) from rfl]
    rw [show readSquares s n i = .ok (out1.1, out1.2) from hout1]
    dsimp only
    rw [show readRows s n k out1.2 = .ok (out2.1, out2.2) from hout2]

lemma readFaces_consumes (s : List Char) (n : Nat) :
    ∀ (k i : Nat) (cube : List (List (List Colour))) (i' : Nat),
    readFaces s n k i = .ok (cube, i') →
    i' = i + n * n * k ∧ ∀ j < n * n * k, validAt s (i + j) := by
  intro k
  induction k with
  | zero =>
    intro i cube i' h
    injection h with h'
    injection h' with h1 h2
    subst h2
    exact ⟨by omega, fun j hj => absurd hj (by simp at hj)⟩
  | succ k ih =>
    intro i cube i' h
    rw [show readFaces s n (k + 1) i
        = (match readRows s n n i with
          | .error e => .error e
          | .ok (face, i1) =>
            match readFaces s n k i1 with
            | .error e => .error e
            | .ok (rest, i2) => .ok (face :: rest, i2)) from rfl] at h
    cases hrw : readRows s n n i with
    | error e => rw [hrw] at h; exact Except.noConfusion h
    | ok out1 =>
      obtain ⟨face, i1⟩ := out1
      rw [hrw] at h
      dsimp only at h
      cases hrec : readFaces s n k i1 with
      | error e => rw [hrec] at h; exact Except.noConfusion h
      | ok out2 =>
        obtain ⟨rest, i2⟩ := out2
        rw [hrec] at h
        dsimp only at h
        injection h with h'
        injection h' with h1 h2
        subst h2
        obtain ⟨hidx1, hvalid1⟩ := readRows_consumes s n n i face i1 hrw
        obtain ⟨hidx2, hvalid2⟩ := ih i1 rest i2 hrec
        refine ⟨by subst hidx1; rw [hidx2, Nat.mul_succ]; omega, fun j hj => ?_⟩
        by_cases hjn : j < n * n
        · exact hvalid1 j hjn
        · have := hvalid2 (j - n * n) (by rw [Nat.mul_succ] at hj; omega)
          rwa [hidx1, show i + n * n + (j - n * n) = i + j by omega] at this

lemma readFaces_ok_of_valid (s : List Char) (n : Nat) :
    ∀ (k i : Nat), (∀ j < n * n * k, validAt s (i + j)) →
    ∃ out, readFaces s n k i = .ok out ∧ out.2 = i + n * n * k := by
  intro k
  induction k with
  | zero => intro i _; exact ⟨([], i), rfl, by omega⟩
  | succ k ih =>
    intro i h
    obtain ⟨out1, hout1, hidx1⟩ := readRows_ok_of_valid s n n i (fun j hj =>
      h j (by rw [Nat.mul_succ]; omega))
    obtain ⟨out2, hout2, hidx2⟩ := ih out1.2 (fun j hj => by
      have := h (n * n + j) (by rw [Nat.mul_succ]; omega)
      rw [hidx1]
      rwa [show i + (n * n + j) = i + n * n + j by omega] at this)
    refine ⟨(out1.1 :: out2.1, out2.2), ?_, by rw [hidx2, hidx1, Nat.mul_succ]; omega⟩
    rw [show readFaces s n (k + 1) i
        = (match readRows s n n i with
          | .error e => .error e
          | .ok (face, i1) =>
            match readFaces s n k i1 with
            | .error e => .error e
            | .ok (rest, i2) => .ok (face :: rest, i2)) from rfl]
    rw [show readRows s n n i = .ok (out1.1, out1.2) from hout1]
    dsimp only
    rw [show readFaces s n k out1.2 = .ok (out2.1, out2.2) from hout2]

end CubeList

open CubeList

/-- C8 counterexample: a string of 7 characters (not 6·1²) is accepted by
`create_cube_from_string_representation` for size 1 — the extra character
is silently ignored, no invalid-string-length error exists. -/
theorem c8_overlong_string_accepted :
    create_cube_from_string_representation 1 (List.replicate 7 'G')
      = .ok (List.replicate 6 [[Colour.GREEN]]) ∧
    (List.replicate 7 'G').length ≠ 6 * (1 * 1) := by
  exact ⟨rfl, by simp⟩

/-- C8 amended: construction succeeds iff the string has at least 6·size²
characters and the first 6·size² are all valid colour codes; a shorter
string fails (IndexError on the read past the end), a string with an
invalid character among the first 6·size² fails (invalid-colour
ValueError), and characters beyond the first 6·size² are ignored. -/
theorem c8_decode_success_iff (n : Nat) (hn : 1 ≤ n) (s : List Char) :
    (∃ c, create_cube_from_string_representation n s = .ok c) ↔
    (6 * (n * n) ≤ s.length ∧ ∀ j < 6 * (n * n), validAt s j) := by
  unfold create_cube_from_string_representation
  rw [if_neg (by omega)]
  have hnn : 1 ≤ n * n := Nat.one_le_iff_ne_zero.mpr (by positivity)
  constructor
  · rintro ⟨c, hc⟩
    cases hread : readFaces s n 6 0 with
    | error e => rw [hread] at hc; exact Except.noConfusion hc
    | ok out =>
      obtain ⟨cube, i'⟩ := out
      obtain ⟨_, hvalid⟩ := readFaces_consumes s n 6 0 cube i' hread
      have hvalid' : ∀ j < 6 * (n * n), validAt s j := by
        intro j hj
        have := hvalid j (by omega)
        simpa using this
      refine ⟨?_, hvalid'⟩
      obtain ⟨ch, hch, _⟩ := hvalid' (6 * (n * n) - 1) (by omega)
      obtain ⟨hlt, _⟩ := List.get?_eq_some.mp hch
      omega
  · rintro ⟨hlen, hvalid⟩
    obtain ⟨out, hout, _⟩ := readFaces_ok_of_valid s n 6 0 (fun j hj => by
      have := hvalid j (by omega)
      simpa using this)
    obtain ⟨cube, i'⟩ := out
    rw [hout]
    exact ⟨cube, rfl⟩

/-- Witness for C8 amended at size 1 with a six-character valid string. -/
theorem c8_decode_success_iff_witness :
    ∃ c, create_cube_from_string_representation 1 (List.replicate 6 'G') = .ok c :=
  (c8_decode_success_iff 1 (by omega) (List.replicate 6 'G')).mpr
    ⟨by simp, by
      intro j hj
      interval_cases j <;> exact ⟨'G', rfl, Colour.GREEN, rfl⟩⟩

end RubiksCube

-- ===== Theorems: accessor index semantics (C9) =====

namespace RubiksCube

namespace CubeList

lemma pyGet_eq_some_iff {α : Type} (l : List α) (i : Int) :
    (∃ v, pyGet l i = some v) ↔ (-(l.length : Int) ≤ i ∧ i < l.length) := by
  unfold pyGet
  by_cases h0 : 0 ≤ i
  · rw [if_pos h0]
    have hcast : (i.toNat : Int) = i := Int.toNat_of_nonneg h0
    constructor
    · rintro ⟨v, hv⟩
      obtain ⟨hlt, _⟩ := List.get?_eq_some.mp hv
      omega
    · rintro ⟨h1, h2⟩
      have hne : ¬ (l.get? i.toNat = none) := by
        rw [List.get?_eq_none]
        omega
      obtain ⟨v, hv⟩ := Option.ne_none_iff_exists'.mp hne
      exact ⟨v, hv⟩
  · rw [if_neg h0]
    by_cases h1 : 0 ≤ i + l.length
    · rw [if_pos h1]
      have hcast : ((i + l.length).toNat : Int) = i + l.length := Int.toNat_of_nonneg h1
      constructor
      · rintro ⟨v, hv⟩
        obtain ⟨hlt, _⟩ := List.get?_eq_some.mp hv
        omega
      · rintro ⟨ha, hb⟩
        have hne : ¬ (l.get? (i + l.length).toNat = none) := by
          rw [List.get?_eq_none]
          omega
        obtain ⟨v, hv⟩ := Option.ne_none_iff_exists'.mp hne
        exact ⟨v, hv⟩
    · rw [if_neg h1]
      constructor
      · rintro ⟨v, hv⟩
        exact Option.noConfusion hv
      · rintro ⟨ha, hb⟩
        omega

lemma pyGet_mem {α : Type} {l : List α} {i : Int} {v : α} (h : pyGet l i = some v) :
    v ∈ l := by
  unfold pyGet at h
  split at h
  · exact List.get?_mem h
  · split at h
    · exact List.get?_mem h
    · exact Option.noConfusion h

lemma get_row_some_iff {n : Nat} (cube : List (List (List Colour)))
    (hs : Shaped n cube) (face row : Int) :
    (∃ v, get_row cube face row = some v) ↔
      (-6 ≤ face ∧ face < 6 ∧ -(n : Int) ≤ row ∧ row < n) := by
  obtain ⟨hlen, hfaces⟩ := hs
  unfold get_row
  constructor
  · rintro ⟨v, hv⟩
    obtain ⟨fl, hfl, hrow⟩ := Option.bind_eq_some.mp hv
    have hfc := (pyGet_eq_some_iff cube face).mp ⟨fl, hfl⟩
    rw [hlen] at hfc
    have hfllen : fl.length = n := (hfaces fl (pyGet_mem hfl)).1
    have hrc := (pyGet_eq_some_iff fl row).mp ⟨v, hrow⟩
    rw [hfllen] at hrc
    exact ⟨by omega, by omega, by omega, by omega⟩
  · rintro ⟨h1, h2, h3, h4⟩
    obtain ⟨fl, hfl⟩ := (pyGet_eq_some_iff cube face).mpr (by rw [hlen]; omega)
    have hfllen : fl.length = n := (hfaces fl (pyGet_mem hfl)).1
    obtain ⟨v, hv⟩ := (pyGet_eq_some_iff fl row).mpr (by rw [hfllen]; omega)
    refine ⟨v, ?_⟩
    rw [hfl]
    exact hv

lemma get_square_some_iff {n : Nat} (cube : List (List (List Colour)))
    (hs : Shaped n cube) (face row column : Int) :
    (∃ v, get_square cube face row column = some v) ↔
      (-6 ≤ face ∧ face < 6 ∧ -(n : Int) ≤ row ∧ row < n ∧
       -(n : Int) ≤ column ∧ column < n) := by
  obtain ⟨hlen, hfaces⟩ := hs
  unfold get_square
  constructor
  · rintro ⟨v, hv⟩
    obtain ⟨rl, hrl, hcol⟩ := Option.bind_eq_some.mp hv
    obtain ⟨fl, hfl, hrow⟩ := Option.bind_eq_some.mp hrl
    have hfc := (pyGet_eq_some_iff cube face).mp ⟨fl, hfl⟩
    rw [hlen] at hfc
    obtain ⟨hfllen, hrows⟩ := hfaces fl (pyGet_mem hfl)
    have hrc := (pyGet_eq_some_iff fl row).mp ⟨rl, hrow⟩
    rw [hfllen] at hrc
    have hrllen : rl.length = n := hrows rl (pyGet_mem hrow)
    have hcc := (pyGet_eq_some_iff rl column).mp ⟨v, hcol⟩
    rw [hrllen] at hcc
    exact ⟨by omega, by omega, by omega, by omega, by omega, by omega⟩
  · rintro ⟨h1, h2, h3, h4, h5, h6⟩
    obtain ⟨fl, hfl⟩ := (pyGet_eq_some_iff cube face).mpr (by rw [hlen]; omega)
    obtain ⟨hfllen, hrows⟩ := hfaces fl (pyGet_mem hfl)
    obtain ⟨rl, hrl⟩ := (pyGet_eq_some_iff fl row).mpr (by rw [hfllen]; omega)
    have hrllen : rl.length = n := hrows rl (pyGet_mem hrl)
    obtain ⟨v, hv⟩ := (pyGet_eq_some_iff rl column).mpr (by rw [hrllen]; omega)
    refine ⟨v, ?_⟩
    rw [hfl]
    show (pyGet fl row).bind (fun rl => pyGet rl column) = some v
    rw [hrl]
    exact hv

lemma mapM_option_some_iff {α β : Type} (f : α → Option β) :
    ∀ l : List α, (∃ v, l.mapM f = some v) ↔ ∀ a ∈ l, ∃ b, f a = some b := by
  intro l
  induction l with
  | nil =>
    constructor
    · intro _ a ha
      exact absurd ha (List.not_mem_nil a)
    · intro _
      exact ⟨[], rfl⟩
  | cons a l ih =>
    rw [List.mapM_cons]
    constructor
    · rintro ⟨v, hv⟩
      cases hfa : f a with
      | none =>
        rw [hfa] at hv
        simp at hv
      | some b =>
        rw [hfa] at hv
        cases hml : l.mapM f with
        | none =>
          rw [show ((some b >>= fun b => l.mapM f >>= fun bs => pure (b :: bs)) : Option (List β))
              = (l.mapM f >>= fun bs => pure (b :: bs)) from rfl, hml] at hv
          simp at hv
        | some bs =>
          intro x hx
          rcases List.mem_cons.mp hx with rfl | hx'
          · exact ⟨b, hfa⟩
          · exact (ih.mp ⟨bs, hml⟩) x hx'
    · intro h
      obtain ⟨b, hb⟩ := h a (List.mem_cons_self _ _)
      obtain ⟨bs, hbs⟩ := ih.mpr (fun x hx => h x (List.mem_cons_of_mem _ hx))
      refine ⟨b :: bs, ?_⟩
      rw [hb]
      show (l.mapM f >>= fun bs => pure (b :: bs) : Option (List β)) = some (b :: bs)
      rw [hbs]
      rfl

lemma get_column_some_iff {n : Nat} (cube : List (List (List Colour)))
    (hs : Shaped n cube) (hn : 1 ≤ n) (face column : Int) :
    (∃ v, get_column n cube face column = some v) ↔
      (-6 ≤ face ∧ face < 6 ∧ -(n : Int) ≤ column ∧ column < n) := by
  unfold get_column
  rw [mapM_option_some_iff]
  constructor
  · intro h
    have h0 := h 0 (List.mem_range.mpr (by omega))
    have := (get_square_some_iff cube hs face (Int.ofNat 0) column).mp h0
    exact ⟨this.1, this.2.1, this.2.2.2.2.1, this.2.2.2.2.2⟩
  · rintro ⟨h1, h2, h3, h4⟩ k hk
    have hkn : k < n := List.mem_range.mp hk
    have hcast : Int.ofNat k = (k : Int) := rfl
    exact (get_square_some_iff cube hs face (Int.ofNat k) column).mpr
      ⟨h1, h2, by rw [hcast]; omega, by rw [hcast]; exact_mod_cast hkn, h3, h4⟩

end CubeList

open CubeList

/-- C9 counterexample: `get_square` with the out-of-range face index -1
does not fail — Python negative indexing wraps to face 5, returning
YELLOW on a solved size-3 cube. -/
theorem c9_negative_index_returns_value :
    get_square (create_completed_cube 3) (-1) 0 0 = some Colour.YELLOW ∧
    ((-1 : Int) < 0) :=
  ⟨rfl, by omega⟩

/-- C9 amended: on a well-shaped size-n cube the accessors follow Python
list-index semantics — they return a value exactly when every index lies
in [-len, len) (len = 6 for the face, n for rows/columns), with negative
indices wrapping; only indices outside that doubled range fail. -/
theorem c9_accessor_index_semantics {n : Nat} (cube : List (List (List Colour)))
    (hs : Shaped n cube) (hn : 1 ≤ n) (face row column : Int) :
    ((∃ v, get_square cube face row column = some v) ↔
      (-6 ≤ face ∧ face < 6 ∧ -(n : Int) ≤ row ∧ row < n ∧
       -(n : Int) ≤ column ∧ column < n)) ∧
    ((∃ v, get_row cube face row = some v) ↔
      (-6 ≤ face ∧ face < 6 ∧ -(n : Int) ≤ row ∧ row < n)) ∧
    ((∃ v, get_column n cube face column = some v) ↔
      (-6 ≤ face ∧ face < 6 ∧ -(n : Int) ≤ column ∧ column < n)) :=
  ⟨get_square_some_iff cube hs face row column,
   get_row_some_iff cube hs face row,
   get_column_some_iff cube hs hn face column⟩

/-- Witness for C9 amended: on the solved size-2 cube, face -6 (wrapping
to face 0) with row 1 and column -2 yields a value. -/
theorem c9_accessor_index_semantics_witness :
    ∃ v, get_square (create_completed_cube 2) (-6) 1 (-2) = some v :=
  ((c9_accessor_index_semantics (n := 2) (create_completed_cube 2)
      (by decide) (by omega) (-6) 1 (-2)).1).mpr
    ⟨by omega, by omega, by omega, by omega, by omega, by omega⟩

end RubiksCube



namespace RubiksCube

/-- Pointwise reading of `Cube._rotate_face` through the index-source map
`spinSrc`. -/
theorem rotate_face_apply {n : Nat} (st : CubeF n) (face : Fin 6) (dir : RotateMove)
    (f : Fin 6) (r c : Fin n) :
    Cube.rotate_face st face dir f r c = applyIdx st (spinSrc face dir (f, r, c)) := by
  simp only [Cube.rotate_face, spinSrc, applyIdx]
  split_ifs with h
  · cases dir <;> rfl
  · rfl

/-- The four strip writes of the corresponding rotation, read pointwise
through the index-source map `xStripSrc`. -/
theorem xStrip_up_apply {n : Nat} (col : Fin n) (st : CubeF n) (i : SquareIdx n) :
    applyIdx (Cube.set_column (Cube.set_column (Cube.set_column (Cube.set_column st
      1 col (Cube.get_column st 5 col) false)
      4 col (Cube.get_column st 1 col) false)
      3 col.rev (Cube.get_column st 4 col) true)
      5 col (Cube.get_column st 3 col.rev) true) i
    = applyIdx st (xStripSrc col ColumnMove.UP i) := by
  obtain ⟨f, r, c⟩ := i
  simp only [applyIdx, Cube.set_column, Cube.set_row, Cube.get_column, Cube.get_row, xStripSrc]
  split_ifs <;> first | rfl | simp_all

/-- The four strip writes of the corresponding rotation, read pointwise
through the index-source map `xStripSrc`. -/
theorem xStrip_down_apply {n : Nat} (col : Fin n) (st : CubeF n) (i : SquareIdx n) :
    applyIdx (Cube.set_column (Cube.set_column (Cube.set_column (Cube.set_column st
      1 col (Cube.get_column st 4 col) false)
      4 col (Cube.get_column st 3 col.rev) true)
      3 col.rev (Cube.get_column st 5 col) true)
      5 col (Cube.get_column st 1 col) false) i
    = applyIdx st (xStripSrc col ColumnMove.DOWN i) := by
  obtain ⟨f, r, c⟩ := i
  simp only [applyIdx, Cube.set_column, Cube.set_row, Cube.get_column, Cube.get_row, xStripSrc]
  split_ifs <;> first | rfl | simp_all

/-- The four strip writes of the corresponding rotation, read pointwise
through the index-source map `yStripSrc`. -/
theorem yStrip_left_apply {n : Nat} (row : Fin n) (st : CubeF n) (i : SquareIdx n) :
    applyIdx (Cube.set_row (Cube.set_row (Cube.set_row (Cube.set_row st
      0 row (Cube.get_row st 1 row) false)
      1 row (Cube.get_row st 2 row) false)
      2 row (Cube.get_row st 3 row) false)
      3 row (Cube.get_row st 0 row) false) i
    = applyIdx st (yStripSrc row RowMove.LEFT i) := by
  obtain ⟨f, r, c⟩ := i
  simp only [applyIdx, Cube.set_column, Cube.set_row, Cube.get_column, Cube.get_row, yStripSrc]
  split_ifs <;> first | rfl | simp_all

/-- The four strip writes of the corresponding rotation, read pointwise
through the index-source map `yStripSrc`. -/
theorem yStrip_right_apply {n : Nat} (row : Fin n) (st : CubeF n) (i : SquareIdx n) :
    applyIdx (Cube.set_row (Cube.set_row (Cube.set_row (Cube.set_row st
      0 row (Cube.get_row st 3 row) false)
      1 row (Cube.get_row st 0 row) false)
      2 row (Cube.get_row st 1 row) false)
      3 row (Cube.get_row st 2 row) false) i
    = applyIdx st (yStripSrc row RowMove.RIGHT i) := by
  obtain ⟨f, r, c⟩ := i
  simp only [applyIdx, Cube.set_column, Cube.set_row, Cube.get_column, Cube.get_row, yStripSrc]
  split_ifs <;> first | rfl | simp_all

/-- The four strip writes of the corresponding rotation, read pointwise
through the index-source map `zStripSrc`. -/
theorem zStrip_up_apply {n : Nat} (col : Fin n) (st : CubeF n) (i : SquareIdx n) :
    applyIdx (Cube.set_row (Cube.set_column (Cube.set_row (Cube.set_column st
      2 col (Cube.get_row st 5 col) true)
      4 col.rev (Cube.get_column st 2 col) false)
      0 col.rev (Cube.get_row st 4 col.rev) true)
      5 col (Cube.get_column st 0 col.rev) false) i
    = applyIdx st (zStripSrc col ColumnMove.UP i) := by
  obtain ⟨f, r, c⟩ := i
  simp only [applyIdx, Cube.set_column, Cube.set_row, Cube.get_column, Cube.get_row, zStripSrc]
  split_ifs <;> first | rfl | simp_all

/-- The four strip writes of the corresponding rotation, read pointwise
through the index-source map `zStripSrc`. -/
theorem zStrip_down_apply {n : Nat} (col : Fin n) (st : CubeF n) (i : SquareIdx n) :
    applyIdx (Cube.set_row (Cube.set_column (Cube.set_row (Cube.set_column st
      2 col (Cube.get_row st 4 col.rev) false)
      4 col.rev (Cube.get_column st 0 col.rev) true)
      0 col.rev (Cube.get_row st 5 col) false)
      5 col (Cube.get_column st 2 col) true) i
    = applyIdx st (zStripSrc col ColumnMove.DOWN i) := by
  obtain ⟨f, r, c⟩ := i
  simp only [applyIdx, Cube.set_column, Cube.set_row, Cube.get_column, Cube.get_row, zStripSrc]
  split_ifs <;> first | rfl | simp_all

/-- Pointwise reading of `Cube.rotate_x0` through the index-source map `xSrc`. -/
theorem rotate_x0_apply {n : Nat} (col : Fin n) (dir : ColumnMove) (st : CubeF n)
    (i : SquareIdx n) :
    applyIdx (Cube.rotate_x0 col dir st) i = applyIdx st (xSrc col dir i) := by
  obtain ⟨f, r, c⟩ := i
  show Cube.rotate_x0 col dir st f r c = applyIdx st (xSrc col dir (f, r, c))
  rcases dir
  case UP =>
    simp only [Cube.rotate_x0, xSrc]
    split_ifs
    · rw [rotate_face_apply]
      exact xStrip_up_apply col st _
    · rw [rotate_face_apply]
      exact xStrip_up_apply col st _
    · exact xStrip_up_apply col st (f, r, c)
  case DOWN =>
    simp only [Cube.rotate_x0, xSrc]
    split_ifs
    · rw [rotate_face_apply]
      exact xStrip_down_apply col st _
    · rw [rotate_face_apply]
      exact xStrip_down_apply col st _
    · exact xStrip_down_apply col st (f, r, c)

/-- Pointwise reading of `Cube.rotate_y0` through the index-source map `ySrc`. -/
theorem rotate_y0_apply {n : Nat} (row : Fin n) (dir : RowMove) (st : CubeF n)
    (i : SquareIdx n) :
    applyIdx (Cube.rotate_y0 row dir st) i = applyIdx st (ySrc row dir i) := by
  obtain ⟨f, r, c⟩ := i
  show Cube.rotate_y0 row dir st f r c = applyIdx st (ySrc row dir (f, r, c))
  rcases dir
  case LEFT =>
    simp only [Cube.rotate_y0, ySrc]
    split_ifs
    · rw [rotate_face_apply]
      exact yStrip_left_apply row st _
    · rw [rotate_face_apply]
      exact yStrip_left_apply row st _
    · exact yStrip_left_apply row st (f, r, c)
  case RIGHT =>
    simp only [Cube.rotate_y0, ySrc]
    split_ifs
    · rw [rotate_face_apply]
      exact yStrip_right_apply row st _
    · rw [rotate_face_apply]
      exact yStrip_right_apply row st _
    · exact yStrip_right_apply row st (f, r, c)

/-- Pointwise reading of `Cube.rotate_z0` through the index-source map `zSrc`. -/
theorem rotate_z0_apply {n : Nat} (col : Fin n) (dir : ColumnMove) (st : CubeF n)
    (i : SquareIdx n) :
    applyIdx (Cube.rotate_z0 col dir st) i = applyIdx st (zSrc col dir i) := by
  obtain ⟨f, r, c⟩ := i
  show Cube.rotate_z0 col dir st f r c = applyIdx st (zSrc col dir (f, r, c))
  rcases dir
  case UP =>
    simp only [Cube.rotate_z0, zSrc]
    split_ifs
    · rw [rotate_face_apply]
      exact zStrip_up_apply col st _
    · rw [rotate_face_apply]
      exact zStrip_up_apply col st _
    · exact zStrip_up_apply col st (f, r, c)
  case DOWN =>
    simp only [Cube.rotate_z0, zSrc]
    split_ifs
    · rw [rotate_face_apply]
      exact zStrip_down_apply col st _
    · rw [rotate_face_apply]
      exact zStrip_down_apply col st _
    · exact zStrip_down_apply col st (f, r, c)

/-- `xSrc ColumnMove.UP` undoes `xSrc ColumnMove.DOWN` on indices. -/
theorem xSrc_inv1 {n : Nat} (col : Fin n) (i : SquareIdx n) :
    xSrc col ColumnMove.UP (xSrc col ColumnMove.DOWN i) = i := by
  obtain ⟨f, r, c⟩ := i
  simp only [xSrc]
  split_ifs
  · by_cases hf : f = (0 : Fin 6)
    · subst hf
      simp [xStripSrc, spinSrc, Fin.rev_rev]
    · by_cases h1 : f = (5 : Fin 6) ∧ c = col
      · obtain ⟨ha, hb⟩ := h1
        subst ha
        subst hb
        simp [xStripSrc, spinSrc, Fin.rev_rev]
      · by_cases h2 : f = (3 : Fin 6) ∧ c = col.rev
        · obtain ⟨ha, hb⟩ := h2
          subst ha
          subst hb
          simp [xStripSrc, spinSrc, Fin.rev_rev]
        · by_cases h3 : f = (4 : Fin 6) ∧ c = col
          · obtain ⟨ha, hb⟩ := h3
            subst ha
            subst hb
            simp [xStripSrc, spinSrc, Fin.rev_rev]
          · by_cases h4 : f = (1 : Fin 6) ∧ c = col
            · obtain ⟨ha, hb⟩ := h4
              subst ha
              subst hb
              simp [xStripSrc, spinSrc, Fin.rev_rev]
            · simp [xStripSrc, spinSrc, hf, h1, h2, h3, h4]
  · by_cases hf : f = (2 : Fin 6)
    · subst hf
      simp [xStripSrc, spinSrc, Fin.rev_rev]
    · by_cases h1 : f = (5 : Fin 6) ∧ c = col
      · obtain ⟨ha, hb⟩ := h1
        subst ha
        subst hb
        simp [xStripSrc, spinSrc, Fin.rev_rev]
      · by_cases h2 : f = (3 : Fin 6) ∧ c = col.rev
        · obtain ⟨ha, hb⟩ := h2
          subst ha
          subst hb
          simp [xStripSrc, spinSrc, Fin.rev_rev]
        · by_cases h3 : f = (4 : Fin 6) ∧ c = col
          · obtain ⟨ha, hb⟩ := h3
            subst ha
            subst hb
            simp [xStripSrc, spinSrc, Fin.rev_rev]
          · by_cases h4 : f = (1 : Fin 6) ∧ c = col
            · obtain ⟨ha, hb⟩ := h4
              subst ha
              subst hb
              simp [xStripSrc, spinSrc, Fin.rev_rev]
            · simp [xStripSrc, spinSrc, hf, h1, h2, h3, h4]
  · by_cases h1 : f = (5 : Fin 6) ∧ c = col
    · obtain ⟨ha, hb⟩ := h1
      subst ha
      subst hb
      simp [xStripSrc, spinSrc, Fin.rev_rev]
    · by_cases h2 : f = (3 : Fin 6) ∧ c = col.rev
      · obtain ⟨ha, hb⟩ := h2
        subst ha
        subst hb
        simp [xStripSrc, spinSrc, Fin.rev_rev]
      · by_cases h3 : f = (4 : Fin 6) ∧ c = col
        · obtain ⟨ha, hb⟩ := h3
          subst ha
          subst hb
          simp [xStripSrc, spinSrc, Fin.rev_rev]
        · by_cases h4 : f = (1 : Fin 6) ∧ c = col
          · obtain ⟨ha, hb⟩ := h4
            subst ha
            subst hb
            simp [xStripSrc, spinSrc, Fin.rev_rev]
          · simp [xStripSrc, spinSrc, h1, h2, h3, h4]

/-- `xSrc ColumnMove.DOWN` undoes `xSrc ColumnMove.UP` on indices. -/
theorem xSrc_inv2 {n : Nat} (col : Fin n) (i : SquareIdx n) :
    xSrc col ColumnMove.DOWN (xSrc col ColumnMove.UP i) = i := by
  obtain ⟨f, r, c⟩ := i
  simp only [xSrc]
  split_ifs
  · by_cases hf : f = (0 : Fin 6)
    · subst hf
      simp [xStripSrc, spinSrc, Fin.rev_rev]
    · by_cases h1 : f = (5 : Fin 6) ∧ c = col
      · obtain ⟨ha, hb⟩ := h1
        subst ha
        subst hb
        simp [xStripSrc, spinSrc, Fin.rev_rev]
      · by_cases h2 : f = (3 : Fin 6) ∧ c = col.rev
        · obtain ⟨ha, hb⟩ := h2
          subst ha
          subst hb
          simp [xStripSrc, spinSrc, Fin.rev_rev]
        · by_cases h3 : f = (4 : Fin 6) ∧ c = col
          · obtain ⟨ha, hb⟩ := h3
            subst ha
            subst hb
            simp [xStripSrc, spinSrc, Fin.rev_rev]
          · by_cases h4 : f = (1 : Fin 6) ∧ c = col
            · obtain ⟨ha, hb⟩ := h4
              subst ha
              subst hb
              simp [xStripSrc, spinSrc, Fin.rev_rev]
            · simp [xStripSrc, spinSrc, hf, h1, h2, h3, h4]
  · by_cases hf : f = (2 : Fin 6)
    · subst hf
      simp [xStripSrc, spinSrc, Fin.rev_rev]
    · by_cases h1 : f = (5 : Fin 6) ∧ c = col
      · obtain ⟨ha, hb⟩ := h1
        subst ha
        subst hb
        simp [xStripSrc, spinSrc, Fin.rev_rev]
      · by_cases h2 : f = (3 : Fin 6) ∧ c = col.rev
        · obtain ⟨ha, hb⟩ := h2
          subst ha
          subst hb
          simp [xStripSrc, spinSrc, Fin.rev_rev]
        · by_cases h3 : f = (4 : Fin 6) ∧ c = col
          · obtain ⟨ha, hb⟩ := h3
            subst ha
            subst hb
            simp [xStripSrc, spinSrc, Fin.rev_rev]
          · by_cases h4 : f = (1 : Fin 6) ∧ c = col
            · obtain ⟨ha, hb⟩ := h4
              subst ha
              subst hb
              simp [xStripSrc, spinSrc, Fin.rev_rev]
            · simp [xStripSrc, spinSrc, hf, h1, h2, h3, h4]
  · by_cases h1 : f = (5 : Fin 6) ∧ c = col
    · obtain ⟨ha, hb⟩ := h1
      subst ha
      subst hb
      simp [xStripSrc, spinSrc, Fin.rev_rev]
    · by_cases h2 : f = (3 : Fin 6) ∧ c = col.rev
      · obtain ⟨ha, hb⟩ := h2
        subst ha
        subst hb
        simp [xStripSrc, spinSrc, Fin.rev_rev]
      · by_cases h3 : f = (4 : Fin 6) ∧ c = col
        · obtain ⟨ha, hb⟩ := h3
          subst ha
          subst hb
          simp [xStripSrc, spinSrc, Fin.rev_rev]
        · by_cases h4 : f = (1 : Fin 6) ∧ c = col
          · obtain ⟨ha, hb⟩ := h4
            subst ha
            subst hb
            simp [xStripSrc, spinSrc, Fin.rev_rev]
          · simp [xStripSrc, spinSrc, h1, h2, h3, h4]

/-- `ySrc RowMove.LEFT` undoes `ySrc RowMove.RIGHT` on indices. -/
theorem ySrc_inv1 {n : Nat} (row : Fin n) (i : SquareIdx n) :
    ySrc row RowMove.LEFT (ySrc row RowMove.RIGHT i) = i := by
  obtain ⟨f, r, c⟩ := i
  simp only [ySrc]
  split_ifs
  · by_cases hf : f = (4 : Fin 6)
    · subst hf
      simp [yStripSrc, spinSrc, Fin.rev_rev]
    · by_cases h1 : f = (3 : Fin 6) ∧ r = row
      · obtain ⟨ha, hb⟩ := h1
        subst ha
        subst hb
        simp [yStripSrc, spinSrc, Fin.rev_rev]
      · by_cases h2 : f = (2 : Fin 6) ∧ r = row
        · obtain ⟨ha, hb⟩ := h2
          subst ha
          subst hb
          simp [yStripSrc, spinSrc, Fin.rev_rev]
        · by_cases h3 : f = (1 : Fin 6) ∧ r = row
          · obtain ⟨ha, hb⟩ := h3
            subst ha
            subst hb
            simp [yStripSrc, spinSrc, Fin.rev_rev]
          · by_cases h4 : f = (0 : Fin 6) ∧ r = row
            · obtain ⟨ha, hb⟩ := h4
              subst ha
              subst hb
              simp [yStripSrc, spinSrc, Fin.rev_rev]
            · simp [yStripSrc, spinSrc, hf, h1, h2, h3, h4]
  · by_cases hf : f = (5 : Fin 6)
    · subst hf
      simp [yStripSrc, spinSrc, Fin.rev_rev]
    · by_cases h1 : f = (3 : Fin 6) ∧ r = row
      · obtain ⟨ha, hb⟩ := h1
        subst ha
        subst hb
        simp [yStripSrc, spinSrc, Fin.rev_rev]
      · by_cases h2 : f = (2 : Fin 6) ∧ r = row
        · obtain ⟨ha, hb⟩ := h2
          subst ha
          subst hb
          simp [yStripSrc, spinSrc, Fin.rev_rev]
        · by_cases h3 : f = (1 : Fin 6) ∧ r = row
          · obtain ⟨ha, hb⟩ := h3
            subst ha
            subst hb
            simp [yStripSrc, spinSrc, Fin.rev_rev]
          · by_cases h4 : f = (0 : Fin 6) ∧ r = row
            · obtain ⟨ha, hb⟩ := h4
              subst ha
              subst hb
              simp [yStripSrc, spinSrc, Fin.rev_rev]
            · simp [yStripSrc, spinSrc, hf, h1, h2, h3, h4]
  · by_cases h1 : f = (3 : Fin 6) ∧ r = row
    · obtain ⟨ha, hb⟩ := h1
      subst ha
      subst hb
      simp [yStripSrc, spinSrc, Fin.rev_rev]
    · by_cases h2 : f = (2 : Fin 6) ∧ r = row
      · obtain ⟨ha, hb⟩ := h2
        subst ha
        subst hb
        simp [yStripSrc, spinSrc, Fin.rev_rev]
      · by_cases h3 : f = (1 : Fin 6) ∧ r = row
        · obtain ⟨ha, hb⟩ := h3
          subst ha
          subst hb
          simp [yStripSrc, spinSrc, Fin.rev_rev]
        · by_cases h4 : f = (0 : Fin 6) ∧ r = row
          · obtain ⟨ha, hb⟩ := h4
            subst ha
            subst hb
            simp [yStripSrc, spinSrc, Fin.rev_rev]
          · simp [yStripSrc, spinSrc, h1, h2, h3, h4]

/-- `ySrc RowMove.RIGHT` undoes `ySrc RowMove.LEFT` on indices. -/
theorem ySrc_inv2 {n : Nat} (row : Fin n) (i : SquareIdx n) :
    ySrc row RowMove.RIGHT (ySrc row RowMove.LEFT i) = i := by
  obtain ⟨f, r, c⟩ := i
  simp only [ySrc]
  split_ifs
  · by_cases hf : f = (4 : Fin 6)
    · subst hf
      simp [yStripSrc, spinSrc, Fin.rev_rev]
    · by_cases h1 : f = (3 : Fin 6) ∧ r = row
      · obtain ⟨ha, hb⟩ := h1
        subst ha
        subst hb
        simp [yStripSrc, spinSrc, Fin.rev_rev]
      · by_cases h2 : f = (2 : Fin 6) ∧ r = row
        · obtain ⟨ha, hb⟩ := h2
          subst ha
          subst hb
          simp [yStripSrc, spinSrc, Fin.rev_rev]
        · by_cases h3 : f = (1 : Fin 6) ∧ r = row
          · obtain ⟨ha, hb⟩ := h3
            subst ha
            subst hb
            simp [yStripSrc, spinSrc, Fin.rev_rev]
          · by_cases h4 : f = (0 : Fin 6) ∧ r = row
            · obtain ⟨ha, hb⟩ := h4
              subst ha
              subst hb
              simp [yStripSrc, spinSrc, Fin.rev_rev]
            · simp [yStripSrc, spinSrc, hf, h1, h2, h3, h4]
  · by_cases hf : f = (5 : Fin 6)
    · subst hf
      simp [yStripSrc, spinSrc, Fin.rev_rev]
    · by_cases h1 : f = (3 : Fin 6) ∧ r = row
      · obtain ⟨ha, hb⟩ := h1
        subst ha
        subst hb
        simp [yStripSrc, spinSrc, Fin.rev_rev]
      · by_cases h2 : f = (2 : Fin 6) ∧ r = row
        · obtain ⟨ha, hb⟩ := h2
          subst ha
          subst hb
          simp [yStripSrc, spinSrc, Fin.rev_rev]
        · by_cases h3 : f = (1 : Fin 6) ∧ r = row
          · obtain ⟨ha, hb⟩ := h3
            subst ha
            subst hb
            simp [yStripSrc, spinSrc, Fin.rev_rev]
          · by_cases h4 : f = (0 : Fin 6) ∧ r = row
            · obtain ⟨ha, hb⟩ := h4
              subst ha
              subst hb
              simp [yStripSrc, spinSrc, Fin.rev_rev]
            · simp [yStripSrc, spinSrc, hf, h1, h2, h3, h4]
  · by_cases h1 : f = (3 : Fin 6) ∧ r = row
    · obtain ⟨ha, hb⟩ := h1
      subst ha
      subst hb
      simp [yStripSrc, spinSrc, Fin.rev_rev]
    · by_cases h2 : f = (2 : Fin 6) ∧ r = row
      · obtain ⟨ha, hb⟩ := h2
        subst ha
        subst hb
        simp [yStripSrc, spinSrc, Fin.rev_rev]
      · by_cases h3 : f = (1 : Fin 6) ∧ r = row
        · obtain ⟨ha, hb⟩ := h3
          subst ha
          subst hb
          simp [yStripSrc, spinSrc, Fin.rev_rev]
        · by_cases h4 : f = (0 : Fin 6) ∧ r = row
          · obtain ⟨ha, hb⟩ := h4
            subst ha
            subst hb
            simp [yStripSrc, spinSrc, Fin.rev_rev]
          · simp [yStripSrc, spinSrc, h1, h2, h3, h4]

/-- `zSrc ColumnMove.UP` undoes `zSrc ColumnMove.DOWN` on indices. -/
theorem zSrc_inv1 {n : Nat} (col : Fin n) (i : SquareIdx n) :
    zSrc col ColumnMove.UP (zSrc col ColumnMove.DOWN i) = i := by
  obtain ⟨f, r, c⟩ := i
  simp only [zSrc]
  split_ifs
  · by_cases hf : f = (1 : Fin 6)
    · subst hf
      simp [zStripSrc, spinSrc, Fin.rev_rev]
    · by_cases h1 : f = (5 : Fin 6) ∧ r = col
      · obtain ⟨ha, hb⟩ := h1
        subst ha
        subst hb
        simp [zStripSrc, spinSrc, Fin.rev_rev]
      · by_cases h2 : f = (0 : Fin 6) ∧ c = col.rev
        · obtain ⟨ha, hb⟩ := h2
          subst ha
          subst hb
          simp [zStripSrc, spinSrc, Fin.rev_rev]
        · by_cases h3 : f = (4 : Fin 6) ∧ r = col.rev
          · obtain ⟨ha, hb⟩ := h3
            subst ha
            subst hb
            simp [zStripSrc, spinSrc, Fin.rev_rev]
          · by_cases h4 : f = (2 : Fin 6) ∧ c = col
            · obtain ⟨ha, hb⟩ := h4
              subst ha
              subst hb
              simp [zStripSrc, spinSrc, Fin.rev_rev]
            · simp [zStripSrc, spinSrc, hf, h1, h2, h3, h4]
  · by_cases hf : f = (3 : Fin 6)
    · subst hf
      simp [zStripSrc, spinSrc, Fin.rev_rev]
    · by_cases h1 : f = (5 : Fin 6) ∧ r = col
      · obtain ⟨ha, hb⟩ := h1
        subst ha
        subst hb
        simp [zStripSrc, spinSrc, Fin.rev_rev]
      · by_cases h2 : f = (0 : Fin 6) ∧ c = col.rev
        · obtain ⟨ha, hb⟩ := h2
          subst ha
          subst hb
          simp [zStripSrc, spinSrc, Fin.rev_rev]
        · by_cases h3 : f = (4 : Fin 6) ∧ r = col.rev
          · obtain ⟨ha, hb⟩ := h3
            subst ha
            subst hb
            simp [zStripSrc, spinSrc, Fin.rev_rev]
          · by_cases h4 : f = (2 : Fin 6) ∧ c = col
            · obtain ⟨ha, hb⟩ := h4
              subst ha
              subst hb
              simp [zStripSrc, spinSrc, Fin.rev_rev]
            · simp [zStripSrc, spinSrc, hf, h1, h2, h3, h4]
  · by_cases h1 : f = (5 : Fin 6) ∧ r = col
    · obtain ⟨ha, hb⟩ := h1
      subst ha
      subst hb
      simp [zStripSrc, spinSrc, Fin.rev_rev]
    · by_cases h2 : f = (0 : Fin 6) ∧ c = col.rev
      · obtain ⟨ha, hb⟩ := h2
        subst ha
        subst hb
        simp [zStripSrc, spinSrc, Fin.rev_rev]
      · by_cases h3 : f = (4 : Fin 6) ∧ r = col.rev
        · obtain ⟨ha, hb⟩ := h3
          subst ha
          subst hb
          simp [zStripSrc, spinSrc, Fin.rev_rev]
        · by_cases h4 : f = (2 : Fin 6) ∧ c = col
          · obtain ⟨ha, hb⟩ := h4
            subst ha
            subst hb
            simp [zStripSrc, spinSrc, Fin.rev_rev]
          · simp [zStripSrc, spinSrc, h1, h2, h3, h4]

/-- `zSrc ColumnMove.DOWN` undoes `zSrc ColumnMove.UP` on indices. -/
theorem zSrc_inv2 {n : Nat} (col : Fin n) (i : SquareIdx n) :
    zSrc col ColumnMove.DOWN (zSrc col ColumnMove.UP i) = i := by
  obtain ⟨f, r, c⟩ := i
  simp only [zSrc]
  split_ifs
  · by_cases hf : f = (1 : Fin 6)
    · subst hf
      simp [zStripSrc, spinSrc, Fin.rev_rev]
    · by_cases h1 : f = (5 : Fin 6) ∧ r = col
      · obtain ⟨ha, hb⟩ := h1
        subst ha
        subst hb
        simp [zStripSrc, spinSrc, Fin.rev_rev]
      · by_cases h2 : f = (0 : Fin 6) ∧ c = col.rev
        · obtain ⟨ha, hb⟩ := h2
          subst ha
          subst hb
          simp [zStripSrc, spinSrc, Fin.rev_rev]
        · by_cases h3 : f = (4 : Fin 6) ∧ r = col.rev
          · obtain ⟨ha, hb⟩ := h3
            subst ha
            subst hb
            simp [zStripSrc, spinSrc, Fin.rev_rev]
          · by_cases h4 : f = (2 : Fin 6) ∧ c = col
            · obtain ⟨ha, hb⟩ := h4
              subst ha
              subst hb
              simp [zStripSrc, spinSrc, Fin.rev_rev]
            · simp [zStripSrc, spinSrc, hf, h1, h2, h3, h4]
  · by_cases hf : f = (3 : Fin 6)
    · subst hf
      simp [zStripSrc, spinSrc, Fin.rev_rev]
    · by_cases h1 : f = (5 : Fin 6) ∧ r = col
      · obtain ⟨ha, hb⟩ := h1
        subst ha
        subst hb
        simp [zStripSrc, spinSrc, Fin.rev_rev]
      · by_cases h2 : f = (0 : Fin 6) ∧ c = col.rev
        · obtain ⟨ha, hb⟩ := h2
          subst ha
          subst hb
          simp [zStripSrc, spinSrc, Fin.rev_rev]
        · by_cases h3 : f = (4 : Fin 6) ∧ r = col.rev
          · obtain ⟨ha, hb⟩ := h3
            subst ha
            subst hb
            simp [zStripSrc, spinSrc, Fin.rev_rev]
          · by_cases h4 : f = (2 : Fin 6) ∧ c = col
            · obtain ⟨ha, hb⟩ := h4
              subst ha
              subst hb
              simp [zStripSrc, spinSrc, Fin.rev_rev]
            · simp [zStripSrc, spinSrc, hf, h1, h2, h3, h4]
  · by_cases h1 : f = (5 : Fin 6) ∧ r = col
    · obtain ⟨ha, hb⟩ := h1
      subst ha
      subst hb
      simp [zStripSrc, spinSrc, Fin.rev_rev]
    · by_cases h2 : f = (0 : Fin 6) ∧ c = col.rev
      · obtain ⟨ha, hb⟩ := h2
        subst ha
        subst hb
        simp [zStripSrc, spinSrc, Fin.rev_rev]
      · by_cases h3 : f = (4 : Fin 6) ∧ r = col.rev
        · obtain ⟨ha, hb⟩ := h3
          subst ha
          subst hb
          simp [zStripSrc, spinSrc, Fin.rev_rev]
        · by_cases h4 : f = (2 : Fin 6) ∧ c = col
          · obtain ⟨ha, hb⟩ := h4
            subst ha
            subst hb
            simp [zStripSrc, spinSrc, Fin.rev_rev]
          · simp [zStripSrc, spinSrc, h1, h2, h3, h4]


/-- Transporting `countColour` along an index-source map with a two-sided
inverse: if every square of `st2` is read from `st1` at the mapped index,
the two cubes have the same number of squares of every colour. -/
theorem countColour_eq_of_applyIdx {n : Nat} (st1 st2 : CubeF n)
    (m minv : SquareIdx n → SquareIdx n)
    (hpt : ∀ i, applyIdx st2 i = applyIdx st1 (m i))
    (hmi : ∀ i, m (minv i) = i) (him : ∀ i, minv (m i) = i)
    (colour : Colour) :
    countColour st2 colour = countColour st1 colour := by
  unfold countColour
  refine Finset.card_bij (fun i _ => m i) ?_ ?_ ?_
  · intro a ha
    simp only [Finset.mem_filter, Finset.mem_univ, true_and] at ha ⊢
    have h := hpt a
    simp only [applyIdx] at h
    rw [← h]
    exact ha
  · intro a _ b _ hab
    have h := congrArg minv hab
    rwa [him, him] at h
  · intro b hb
    refine ⟨minv b, ?_, hmi b⟩
    simp only [Finset.mem_filter, Finset.mem_univ, true_and] at hb ⊢
    have h := hpt (minv b)
    simp only [applyIdx] at h
    rw [h, hmi]
    exact hb

/-- The per-colour counts of any cube sum to the total number of squares,
6 times size squared: the cube always has 6 faces of size×size squares. -/
theorem sum_countColour {n : Nat} (st : CubeF n) :
    (∑ k : Colour, countColour st k) = 6 * (n * n) := by
  have h := Finset.card_eq_sum_card_fiberwise
    (fun (x : SquareIdx n) (_ : x ∈ (Finset.univ : Finset (SquareIdx n))) =>
      Finset.mem_univ (st x.1 x.2.1 x.2.2))
  have h2 : (∑ k : Colour, countColour st k)
      = (Finset.univ : Finset (SquareIdx n)).card := by
    rw [h]
    rfl
  rw [h2, Finset.card_univ]
  simp [Fintype.card_prod, Fintype.card_fin]

/-- `rotate_x` (0-indexed core) preserves the count of every colour. -/
theorem countColour_rotate_x0 {n : Nat} (col : Fin n) (dir : ColumnMove)
    (st : CubeF n) (colour : Colour) :
    countColour (Cube.rotate_x0 col dir st) colour = countColour st colour := by
  rcases dir
  case UP =>
    exact countColour_eq_of_applyIdx st _ (xSrc col ColumnMove.UP)
      (xSrc col ColumnMove.DOWN) (rotate_x0_apply col ColumnMove.UP st)
      (xSrc_inv1 col) (xSrc_inv2 col) colour
  case DOWN =>
    exact countColour_eq_of_applyIdx st _ (xSrc col ColumnMove.DOWN)
      (xSrc col ColumnMove.UP) (rotate_x0_apply col ColumnMove.DOWN st)
      (xSrc_inv2 col) (xSrc_inv1 col) colour

/-- `rotate_y` (0-indexed core) preserves the count of every colour. -/
theorem countColour_rotate_y0 {n : Nat} (row : Fin n) (dir : RowMove)
    (st : CubeF n) (colour : Colour) :
    countColour (Cube.rotate_y0 row dir st) colour = countColour st colour := by
  rcases dir
  case LEFT =>
    exact countColour_eq_of_applyIdx st _ (ySrc row RowMove.LEFT)
      (ySrc row RowMove.RIGHT) (rotate_y0_apply row RowMove.LEFT st)
      (ySrc_inv1 row) (ySrc_inv2 row) colour
  case RIGHT =>
    exact countColour_eq_of_applyIdx st _ (ySrc row RowMove.RIGHT)
      (ySrc row RowMove.LEFT) (rotate_y0_apply row RowMove.RIGHT st)
      (ySrc_inv2 row) (ySrc_inv1 row) colour

/-- `rotate_z` (0-indexed core) preserves the count of every colour. -/
theorem countColour_rotate_z0 {n : Nat} (col : Fin n) (dir : ColumnMove)
    (st : CubeF n) (colour : Colour) :
    countColour (Cube.rotate_z0 col dir st) colour = countColour st colour := by
  rcases dir
  case UP =>
    exact countColour_eq_of_applyIdx st _ (zSrc col ColumnMove.UP)
      (zSrc col ColumnMove.DOWN) (rotate_z0_apply col ColumnMove.UP st)
      (zSrc_inv1 col) (zSrc_inv2 col) colour
  case DOWN =>
    exact countColour_eq_of_applyIdx st _ (zSrc col ColumnMove.DOWN)
      (zSrc col ColumnMove.UP) (rotate_z0_apply col ColumnMove.DOWN st)
      (zSrc_inv2 col) (zSrc_inv1 col) colour

/-- C10: every successful `rotate_x`, `rotate_y` or `rotate_z` call (valid
1-indexed argument, so the call returns a cube rather than raising
`ValueError`) permutes the cube's squares: for each colour the number of
squares of that colour over the whole cube is unchanged, and the resulting
cube still consists of 6 faces of size×size squares (its per-colour counts
sum to `6 * size²`). -/
theorem c10_rotations_preserve_squares {n : Nat} (st : CubeF n) (colour : Colour)
    (idx : Nat) :
    (∀ (dir : ColumnMove) (st2 : CubeF n), Cube.rotate_x idx dir st = .ok st2 →
      countColour st2 colour = countColour st colour ∧
      (∑ k : Colour, countColour st2 k) = 6 * (n * n)) ∧
    (∀ (dir : RowMove) (st2 : CubeF n), Cube.rotate_y idx dir st = .ok st2 →
      countColour st2 colour = countColour st colour ∧
      (∑ k : Colour, countColour st2 k) = 6 * (n * n)) ∧
    (∀ (dir : ColumnMove) (st2 : CubeF n), Cube.rotate_z idx dir st = .ok st2 →
      countColour st2 colour = countColour st colour ∧
      (∑ k : Colour, countColour st2 k) = 6 * (n * n)) := by
  refine ⟨?_, ?_, ?_⟩
  · intro dir st2 h
    unfold Cube.rotate_x at h
    split at h
    · cases h
      exact ⟨countColour_rotate_x0 _ dir st colour, sum_countColour _⟩
    · cases h
  · intro dir st2 h
    unfold Cube.rotate_y at h
    split at h
    · cases h
      exact ⟨countColour_rotate_y0 _ dir st colour, sum_countColour _⟩
    · cases h
  · intro dir st2 h
    unfold Cube.rotate_z at h
    split at h
    · cases h
      exact ⟨countColour_rotate_z0 _ dir st colour, sum_countColour _⟩
    · cases h

/-- Witness for C10: rotating column 2 of a solved 3×3×3 cube upward keeps
the number of RED squares, and the rotated cube still has 6·3·3 squares. -/
theorem c10_rotations_preserve_squares_witness :
    countColour (Cube.rotate_x0 (⟨1, by omega⟩ : Fin 3) ColumnMove.UP (solvedCube 3))
        Colour.RED
      = countColour (solvedCube 3) Colour.RED ∧
    (∑ k : Colour,
        countColour (Cube.rotate_x0 (⟨1, by omega⟩ : Fin 3) ColumnMove.UP (solvedCube 3)) k)
      = 6 * (3 * 3) :=
  (c10_rotations_preserve_squares (solvedCube 3) Colour.RED 2).1 ColumnMove.UP
    (Cube.rotate_x0 (⟨1, by omega⟩ : Fin 3) ColumnMove.UP (solvedCube 3)) rfl

end RubiksCube
